import Mathlib

/-!
# Garage-Door-cpp: button / LED fade controller

A shallow embedding of `src/main.cpp`.

* Machine integers are `Nat` / `Int` with explicit wrap-around where the
  source converts or can overflow.
* The hardware abstraction layer (pico-sdk) is external to the repository.
  Calls into it that have an effect are recorded, in program order, in a
  trace of `HalCall`s; values it returns (`gpio_get`, the clock read inside
  `make_timeout_time_ms`) are inputs of the embedded functions.
* The process-wide statics (`pins_in_use`, `pwm_used_`, `slice_inited_`) are
  passed explicitly.
-/

namespace GarageDoor

/-! ## Constants (main.cpp lines 8-21) -/

def CLK_DIV : Nat := 125
def WRAP_VALUE : Nat := 999
def PWM_MAX : Nat := 1000

def SW0 : Int := 9
def SW1 : Int := 8
def SW2 : Int := 7
def LED1 : Int := 22
def LED2 : Int := 21
def LED3 : Int := 20

def POLL_MS : Nat := 10
def RELEASE : Nat := 1000

/-! ## pico-sdk values and pure helpers used by the source -/

def GPIO_IN : Bool := false
def GPIO_OUT : Bool := true
def GPIO_OVERRIDE_NORMAL : Nat := 0
def GPIO_OVERRIDE_INVERT : Nat := 1
def GPIO_FUNC_PWM : Nat := 4
def PWM_CHAN_A : Nat := 0
def PWM_CHAN_B : Nat := 1
def NUM_PWM_SLICES : Nat := 8
def INT64_MAX : Nat := 2 ^ 63 - 1

/-- Conversion of an `int` to `uint` / `uint32_t` (value modulo 2^32). -/
def toUInt32 (i : Int) : Nat := (i % 2 ^ 32).toNat

/-- Conversion of an `int64_t` to `uint64_t` (value modulo 2^64). -/
def toUInt64 (i : Int) : Nat := (i % 2 ^ 64).toNat

/-- Reinterpretation of a `uint64_t` as `int64_t` (two's complement). -/
def toInt64 (n : Nat) : Int :=
  if n % 2 ^ 64 < 2 ^ 63 then ((n % 2 ^ 64 : Nat) : Int) else ((n % 2 ^ 64 : Nat) : Int) - 2 ^ 64

/-! Timestamps (`absolute_time_t` in the sdk: microseconds since boot, a `uint64_t` that
the sdk keeps at or below `INT64_MAX`) are natural numbers. -/

/-- The constant `nil_time` of the pico-sdk: the timestamp 0. -/
def nil_time : Nat := 0

/-- The sdk's `is_nil_time`. -/
def is_nil_time (t : Nat) : Bool := t == 0

/-- The sdk's `absolute_time_diff_us(from, to)`: the unsigned 64-bit
difference `to - from`, reinterpreted as `int64_t`. -/
def absolute_time_diff_us (t_from t_to : Nat) : Int :=
  toInt64 ((t_to % 2 ^ 64 + 2 ^ 64 - t_from % 2 ^ 64) % 2 ^ 64)

/-- The sdk's `make_timeout_time_ms(ms)`, i.e. `delayed_by_ms(get_absolute_time(), ms)`:
`clock` is the value `get_absolute_time()` returns inside the call.  The sum is
computed in `uint64_t` and saturates at `INT64_MAX` when its sign bit is set. -/
def make_timeout_time_ms (clock : Nat) (ms : Nat) : Nat :=
  let delayed := (clock + ms * 1000) % 2 ^ 64
  if 2 ^ 63 ≤ delayed then INT64_MAX else delayed

/-- The sdk's `pwm_gpio_to_slice_num` on RP2040: `(gpio >> 1) & 7`. -/
def pwm_gpio_to_slice_num (gpio : Nat) : Nat := (gpio >>> 1) &&& 7

/-- The sdk's `pwm_gpio_to_channel` on RP2040: `gpio & 1`. -/
def pwm_gpio_to_channel (gpio : Nat) : Nat := gpio &&& 1

/-- Effectful calls into the HAL (and `printf`), as they appear in the source. -/
inductive HalCall where
  | gpio_init (pin : Int)
  | gpio_set_dir (pin : Int) (out : Bool)
  | gpio_pull_up (pin : Int)
  | gpio_disable_pulls (pin : Int)
  | gpio_set_inover (pin : Int) (value : Nat)
  | gpio_set_outover (pin : Int) (value : Nat)
  | gpio_get (pin : Int)
  | gpio_put (pin : Int) (value : Bool)
  | gpio_set_function (pin : Int) (fn : Nat)
  | pwm_init (slice : Nat) (clkdiv : Nat) (wrap : Nat) (start : Bool)
  | pwm_set_enabled (slice : Nat) (enabled : Bool)
  | pwm_set_chan_level (slice : Nat) (chan : Nat) (level : Nat)
  | printf_conflict (pin : Int) (slice : Nat) (ch_idx : Nat)
  deriving DecidableEq, Repr

/-- A write to a PWM channel's duty level. -/
def HalCall.isPwmLevelWrite : HalCall → Bool
  | .pwm_set_chan_level _ _ _ => true
  | _ => false

/-- A write to a raw pin. -/
def HalCall.isPinWrite : HalCall → Bool
  | .gpio_put _ _ => true
  | _ => false

/-! ## class GPIOPin (main.cpp lines 23-82) -/

structure GPIOPin where
  pin_ : Int
  is_input_ : Bool
  valid_ : Bool
  deriving DecidableEq, Repr

/-- The constructor `GPIOPin::GPIOPin(pin, input, pullup, invert)`.  Takes the static
`pins_in_use` and returns the handle, the new `pins_in_use` and the HAL calls made. -/
def GPIOPin.ctor (pins_in_use : Nat) (pin : Int) (input pullup invert : Bool) :
    GPIOPin × Nat × List HalCall :=
  if pin < 0 ∨ pin > 29 then
    ({ pin_ := pin, is_input_ := input, valid_ := false }, pins_in_use, [])
  else
    let bit : Nat := (1 <<< pin.toNat) % 2 ^ 32
    if pins_in_use &&& bit ≠ 0 then
      ({ pin_ := pin, is_input_ := input, valid_ := false }, pins_in_use, [])
    else
      ({ pin_ := pin, is_input_ := input, valid_ := true },
       pins_in_use ||| bit,
       HalCall.gpio_init pin ::
        (if input then
          [HalCall.gpio_set_dir pin GPIO_IN,
           (if pullup then HalCall.gpio_pull_up pin else HalCall.gpio_disable_pulls pin),
           HalCall.gpio_set_inover pin
             (if invert then GPIO_OVERRIDE_INVERT else GPIO_OVERRIDE_NORMAL)]
        else
          [HalCall.gpio_set_dir pin GPIO_OUT,
           HalCall.gpio_disable_pulls pin,
           HalCall.gpio_set_outover pin
             (if invert then GPIO_OVERRIDE_INVERT else GPIO_OVERRIDE_NORMAL)]))

/-- The destructor `GPIOPin::~GPIOPin()`: returns the new `pins_in_use` and the HAL
calls made.  `~(1u << pin_)` is the 32-bit complement. -/
def GPIOPin.dtor (h : GPIOPin) (pins_in_use : Nat) : Nat × List HalCall :=
  if !h.valid_ then (pins_in_use, [])
  else
    (pins_in_use &&& ((2 ^ 32 - 1) ^^^ ((1 <<< h.pin_.toNat) % 2 ^ 32)),
     [HalCall.gpio_set_inover h.pin_ GPIO_OVERRIDE_NORMAL,
      HalCall.gpio_set_outover h.pin_ GPIO_OVERRIDE_NORMAL,
      HalCall.gpio_disable_pulls h.pin_,
      HalCall.gpio_set_dir h.pin_ GPIO_IN])

/-- The method `GPIOPin::read()`; `level` is what `gpio_get(pin_)` returns if called. -/
def GPIOPin.read (h : GPIOPin) (level : Bool) : Bool × List HalCall :=
  if !h.valid_ then (false, []) else (level, [HalCall.gpio_get h.pin_])

/-- The method `GPIOPin::write(value)`. -/
def GPIOPin.write (h : GPIOPin) (value : Bool) : List HalCall :=
  if !h.valid_ then [] else [HalCall.gpio_put h.pin_ value]

/-- The method `GPIOPin::number()`. -/
def GPIOPin.number (h : GPIOPin) : Int := h.pin_

/-! ## class ButtonAndLed (main.cpp lines 85-184) -/

/-- The static tables `pwm_used_[NUM_PWM_SLICES][2]` and `slice_inited_[NUM_PWM_SLICES]`. -/
structure PwmTables where
  pwm_used_ : Nat → Nat → Bool
  slice_inited_ : Nat → Bool

/-- The tables as initialised at program start: all `false`. -/
def PwmTables.empty : PwmTables :=
  { pwm_used_ := fun _ _ => false, slice_inited_ := fun _ => false }

structure ButtonAndLed where
  button_ : GPIOPin
  led_ : GPIOPin
  slice_ : Nat
  channel_ : Nat
  brightness_ : Nat
  led_on_ : Bool
  off_deadline_ : Nat
  pwm_ok_ : Bool
  deriving DecidableEq, Repr

/-- The constructor `ButtonAndLed::ButtonAndLed(button_pin, led_pin)`: constructs
`button_` and then `led_`; the other members take their default initialisers. -/
def ButtonAndLed.ctor (pins_in_use : Nat) (button_pin led_pin : Int) :
    ButtonAndLed × Nat × List HalCall :=
  let b := GPIOPin.ctor pins_in_use button_pin true true false
  let l := GPIOPin.ctor b.2.1 led_pin false false false
  ({ button_ := b.1, led_ := l.1, slice_ := 0, channel_ := PWM_CHAN_A, brightness_ := 0,
     led_on_ := false, off_deadline_ := nil_time, pwm_ok_ := false },
   l.2.1, b.2.2 ++ l.2.2)

/-- The method `ButtonAndLed::init_pwm()`. -/
def ButtonAndLed.init_pwm (s : ButtonAndLed) (t : PwmTables) :
    ButtonAndLed × PwmTables × List HalCall :=
  let pin := s.led_.number
  let slice := pwm_gpio_to_slice_num (toUInt32 pin)
  let ch := pwm_gpio_to_channel (toUInt32 pin)
  let ch_idx : Nat := if ch = PWM_CHAN_A then 0 else 1
  if t.pwm_used_ slice ch_idx then
    ({ s with pwm_ok_ := false, slice_ := slice, channel_ := ch, brightness_ := 0,
              led_on_ := false, off_deadline_ := nil_time },
     t,
     [HalCall.printf_conflict pin slice ch_idx])
  else
    ({ s with slice_ := slice, channel_ := ch, brightness_ := 0, led_on_ := false,
              off_deadline_ := nil_time, pwm_ok_ := true },
     { pwm_used_ := fun a b => if a = slice ∧ b = ch_idx then true else t.pwm_used_ a b,
       slice_inited_ := fun a => if a = slice then true else t.slice_inited_ a },
     [HalCall.gpio_set_function pin GPIO_FUNC_PWM] ++
       (if !t.slice_inited_ slice then [HalCall.pwm_init slice CLK_DIV WRAP_VALUE true]
        else [HalCall.pwm_set_enabled slice true]) ++
       [HalCall.pwm_set_chan_level slice ch 0])

/-- The method `ButtonAndLed::set_brightness(level)`; `level` is a `uint16_t`. -/
def ButtonAndLed.set_brightness (s : ButtonAndLed) (level : Nat) :
    ButtonAndLed × List HalCall :=
  let level := if level > PWM_MAX then PWM_MAX else level
  let s1 := { s with brightness_ := level }
  if s1.pwm_ok_ then
    (s1, [HalCall.pwm_set_chan_level s1.slice_ s1.channel_ s1.brightness_])
  else
    (s1, s1.led_.write (decide (s1.brightness_ > PWM_MAX / 2)))

/-- The duty value computed in the fading branch of `update`:
`(uint16_t)((uint64_t) PWM_MAX * rem_us / total_us)` with `total_us = RELEASE * 1000u`. -/
def fade_level (rem_us : Int) : Nat :=
  let total_us := (RELEASE * 1000) % 2 ^ 32
  (((PWM_MAX * toUInt64 rem_us) % 2 ^ 64) / total_us) % 2 ^ 16

/-- The method `ButtonAndLed::update(now)`.  `level` is what `gpio_get` returns for the
button pin if `button_.read()` reaches it, `clock` what `get_absolute_time()` returns
inside `make_timeout_time_ms` if that is called. -/
def ButtonAndLed.update (s : ButtonAndLed) (now : Nat) (clock : Nat)
    (level : Bool) : ButtonAndLed × List HalCall :=
  let r := s.button_.read level
  let pressed : Bool := (r.1 == false)
  if pressed then
    let sb := s.set_brightness PWM_MAX
    ({ sb.1 with led_on_ := true, off_deadline_ := nil_time }, r.2 ++ sb.2)
  else if s.led_on_ then
    if is_nil_time s.off_deadline_ then
      ({ s with off_deadline_ := make_timeout_time_ms clock RELEASE }, r.2)
    else if absolute_time_diff_us now s.off_deadline_ ≤ 0 then
      let sb := s.set_brightness 0
      ({ sb.1 with led_on_ := false, off_deadline_ := nil_time }, r.2 ++ sb.2)
    else
      let rem_us := absolute_time_diff_us now s.off_deadline_
      let sb := s.set_brightness (fade_level rem_us)
      (sb.1, r.2 ++ sb.2)
  else
    (s, r.2)

/-! ## The process: several objects sharing the statics -/

/-- The pin handles alive at some instant, with the static `pins_in_use`. -/
structure PinWorld where
  pins_in_use : Nat
  live : List GPIOPin

/-- Program start: `pins_in_use = 0u`, no handle constructed yet. -/
def PinWorld.start : PinWorld := { pins_in_use := 0, live := [] }

/-- A construction of a `GPIOPin`, or the destruction of the live handle at a position. -/
inductive PinOp where
  | construct (pin : Int) (input pullup invert : Bool)
  | destroy (idx : Nat)
  deriving DecidableEq, Repr

/-- One construction or destruction; destroying a position that holds no handle does nothing. -/
def PinWorld.step (w : PinWorld) : PinOp → PinWorld
  | .construct pin input pullup invert =>
      let r := GPIOPin.ctor w.pins_in_use pin input pullup invert
      { pins_in_use := r.2.1, live := w.live ++ [r.1] }
  | .destroy idx =>
      match w.live[idx]? with
      | none => w
      | some h => { pins_in_use := (h.dtor w.pins_in_use).1, live := w.live.eraseIdx idx }

def PinWorld.run (w : PinWorld) (ops : List PinOp) : PinWorld := ops.foldl PinWorld.step w

/-- The number of live valid handles whose `pin_` is `p`. -/
def PinWorld.claimants (w : PinWorld) (p : Int) : Nat :=
  w.live.countP (fun h => h.valid_ && decide (h.pin_ = p))

/-- The registry agrees with the live handles: every pin has at most one live valid handle,
bit `q` of `pins_in_use` is set exactly when pin `q` has one, and valid handles are in range. -/
def PinWorld.Consistent (w : PinWorld) : Prop :=
  (∀ p : Int, w.claimants p ≤ 1) ∧
  (∀ q : Nat, w.pins_in_use.testBit q = true ↔
    ∃ h ∈ w.live, h.valid_ = true ∧ h.pin_ = (q : Int)) ∧
  (∀ h ∈ w.live, h.valid_ = true → 0 ≤ h.pin_ ∧ h.pin_ ≤ 29)

/-- The slice `init_pwm` looks up for the pair's LED pin. -/
def ButtonAndLed.led_slice (s : ButtonAndLed) : Nat :=
  pwm_gpio_to_slice_num (toUInt32 s.led_.number)

/-- The channel `init_pwm` looks up for the pair's LED pin. -/
def ButtonAndLed.led_channel (s : ButtonAndLed) : Nat :=
  pwm_gpio_to_channel (toUInt32 s.led_.number)

/-- The column `ch_idx` of `pwm_used_` that `init_pwm` uses for the pair's LED pin. -/
def ButtonAndLed.led_ch_idx (s : ButtonAndLed) : Nat :=
  if s.led_channel = PWM_CHAN_A then 0 else 1

/-- The pairs of the program, with the static PWM tables they share. -/
structure PairWorld where
  pairs : List ButtonAndLed
  tables : PwmTables

/-- Constructs one pair per `(button_pin, led_pin)`, in order, threading `pins_in_use`. -/
def constructPairs (pins_in_use : Nat) : List (Int × Int) → List ButtonAndLed
  | [] => []
  | (b, l) :: rest =>
      let r := ButtonAndLed.ctor pins_in_use b l
      r.1 :: constructPairs r.2.1 rest

/-- The state after the pairs are constructed and before any `init_pwm`, as in `main`:
`pins_in_use` starts at 0 and the PWM tables are all `false`. -/
def PairWorld.boot (pins : List (Int × Int)) : PairWorld :=
  { pairs := constructPairs 0 pins, tables := PwmTables.empty }

/-- Every pair in PWM mode records the identity of its LED pin, that identity is marked in
`pwm_used_`, and no two pairs in PWM mode record the same `(slice_, channel_)`. -/
def PairWorld.Exclusive (w : PairWorld) : Prop :=
  (∀ (i : Nat) (a : ButtonAndLed), w.pairs[i]? = some a → a.pwm_ok_ = true →
    a.slice_ = a.led_slice ∧ a.channel_ = a.led_channel ∧
    w.tables.pwm_used_ a.led_slice a.led_ch_idx = true) ∧
  (∀ (i j : Nat) (a b : ButtonAndLed), i ≠ j → w.pairs[i]? = some a → w.pairs[j]? = some b →
    a.pwm_ok_ = true → b.pwm_ok_ = true → ¬ (a.slice_ = b.slice_ ∧ a.channel_ = b.channel_))

/-- A call of `init_pwm` or of `update` on the pair at position `i`. -/
inductive PairOp where
  | init_pwm (i : Nat)
  | update (i : Nat) (now clock : Nat) (level : Bool)
  deriving DecidableEq, Repr

/-- One call; a position that holds no pair does nothing. -/
def PairWorld.step (w : PairWorld) : PairOp → PairWorld
  | .init_pwm i =>
      match w.pairs[i]? with
      | none => w
      | some s =>
          let r := s.init_pwm w.tables
          { pairs := w.pairs.set i r.1, tables := r.2.1 }
  | .update i now clock level =>
      match w.pairs[i]? with
      | none => w
      | some s => { w with pairs := w.pairs.set i (s.update now clock level).1 }

def PairWorld.run (w : PairWorld) (ops : List PairOp) : PairWorld := ops.foldl PairWorld.step w

/-- Repeated `update` calls on one pair, one per tick `(now, clock, level)`. -/
def ButtonAndLed.updates (s : ButtonAndLed) : List (Nat × Nat × Bool) →
    ButtonAndLed
  | [] => s
  | (now, clock, level) :: rest => ((s.update now clock level).1).updates rest

/-- The HAL calls issued by one call of `init_pwm` or `update` on the pair at a position. -/
def PairWorld.stepCalls (w : PairWorld) : PairOp → List HalCall
  | .init_pwm i =>
      match w.pairs[i]? with
      | none => []
      | some s => (s.init_pwm w.tables).2.2
  | .update i now clock level =>
      match w.pairs[i]? with
      | none => []
      | some s => (s.update now clock level).2

/-- The HAL calls issued by a sequence of calls, in program order. -/
def PairWorld.runCalls (w : PairWorld) : List PairOp → List HalCall
  | [] => []
  | op :: rest => w.stepCalls op ++ (w.step op).runCalls rest

/-- A `pwm_init` call for the given slice. -/
def HalCall.isPwmInitFor (slice : Nat) : HalCall → Bool
  | .pwm_init s _ _ _ => s == slice
  | _ => false

/-- The channel `(sl, cx)` is marked in `pwm_used_`, and a pair whose LED pin maps to it is
in PWM mode only if it is the pair at position `holder` (no pair at all when `holder` is
`none`). -/
def PairWorld.OnlyHolder (w : PairWorld) (sl cx : Nat) (holder : Option Nat) : Prop :=
  w.tables.pwm_used_ sl cx = true ∧
  ∀ (k : Nat) (b : ButtonAndLed), w.pairs[k]? = some b → b.led_slice = sl →
    b.led_ch_idx = cx → b.pwm_ok_ = true → holder = some k

/-! ## Basic facts

Results of `set_brightness` and `update` are described field by field, so that later
proofs rewrite with these equations instead of unfolding the definitions. -/

theorem sb_brightness (s : ButtonAndLed) (l : Nat) :
    (s.set_brightness l).1.brightness_ = if l > PWM_MAX then PWM_MAX else l := by
  unfold ButtonAndLed.set_brightness
  by_cases hp : s.pwm_ok_ = true <;> simp [hp]

theorem sb_led_on (s : ButtonAndLed) (l : Nat) : (s.set_brightness l).1.led_on_ = s.led_on_ := by
  unfold ButtonAndLed.set_brightness
  by_cases hp : s.pwm_ok_ = true <;> simp [hp]

theorem sb_off_deadline (s : ButtonAndLed) (l : Nat) :
    (s.set_brightness l).1.off_deadline_ = s.off_deadline_ := by
  unfold ButtonAndLed.set_brightness
  by_cases hp : s.pwm_ok_ = true <;> simp [hp]

theorem sb_pwm_ok (s : ButtonAndLed) (l : Nat) : (s.set_brightness l).1.pwm_ok_ = s.pwm_ok_ := by
  unfold ButtonAndLed.set_brightness
  by_cases hp : s.pwm_ok_ = true <;> simp [hp]

theorem sb_slice (s : ButtonAndLed) (l : Nat) : (s.set_brightness l).1.slice_ = s.slice_ := by
  unfold ButtonAndLed.set_brightness
  by_cases hp : s.pwm_ok_ = true <;> simp [hp]

theorem sb_channel (s : ButtonAndLed) (l : Nat) :
    (s.set_brightness l).1.channel_ = s.channel_ := by
  unfold ButtonAndLed.set_brightness
  by_cases hp : s.pwm_ok_ = true <;> simp [hp]

theorem sb_button (s : ButtonAndLed) (l : Nat) : (s.set_brightness l).1.button_ = s.button_ := by
  unfold ButtonAndLed.set_brightness
  by_cases hp : s.pwm_ok_ = true <;> simp [hp]

theorem sb_led (s : ButtonAndLed) (l : Nat) : (s.set_brightness l).1.led_ = s.led_ := by
  unfold ButtonAndLed.set_brightness
  by_cases hp : s.pwm_ok_ = true <;> simp [hp]

theorem sb_trace (s : ButtonAndLed) (l : Nat) :
    (s.set_brightness l).2 =
      if s.pwm_ok_ = true then
        [HalCall.pwm_set_chan_level s.slice_ s.channel_ (if l > PWM_MAX then PWM_MAX else l)]
      else s.led_.write (decide ((if l > PWM_MAX then PWM_MAX else l) > PWM_MAX / 2)) := by
  unfold ButtonAndLed.set_brightness
  by_cases hp : s.pwm_ok_ = true <;> simp [hp]

theorem set_brightness_le (s : ButtonAndLed) (level : Nat) :
    (s.set_brightness level).1.brightness_ ≤ PWM_MAX := by
  rw [sb_brightness]
  split <;> omega

/-- The pressed branch of `update`. -/
theorem update_pressed (s : ButtonAndLed) (now clock : Nat) (level : Bool)
    (h : (s.button_.read level).1 = false) :
    (s.update now clock level).1.brightness_ = PWM_MAX ∧
    (s.update now clock level).1.led_on_ = true ∧
    (s.update now clock level).1.off_deadline_ = nil_time ∧
    (s.update now clock level).2 = (s.button_.read level).2 ++ (s.set_brightness PWM_MAX).2 := by
  refine ⟨?_, ?_, ?_, ?_⟩ <;> simp [ButtonAndLed.update, h, sb_brightness]

/-- The branch of `update` with the button released and `led_on_` false. -/
theorem update_idle (s : ButtonAndLed) (now clock : Nat) (level : Bool)
    (h : (s.button_.read level).1 = true) (hl : s.led_on_ = false) :
    (s.update now clock level).1 = s ∧
    (s.update now clock level).2 = (s.button_.read level).2 := by
  refine ⟨?_, ?_⟩ <;> simp [ButtonAndLed.update, h, hl]

/-- The branch of `update` that arms the deadline. -/
theorem update_arm (s : ButtonAndLed) (now clock : Nat) (level : Bool)
    (h : (s.button_.read level).1 = true) (hl : s.led_on_ = true)
    (hd : is_nil_time s.off_deadline_ = true) :
    (s.update now clock level).1.brightness_ = s.brightness_ ∧
    (s.update now clock level).1.led_on_ = true ∧
    (s.update now clock level).1.off_deadline_ = make_timeout_time_ms clock RELEASE ∧
    (s.update now clock level).2 = (s.button_.read level).2 := by
  refine ⟨?_, ?_, ?_, ?_⟩ <;> simp [ButtonAndLed.update, h, hl, hd]

/-- The branch of `update` taken at or after the deadline. -/
theorem update_expire (s : ButtonAndLed) (now clock : Nat) (level : Bool)
    (h : (s.button_.read level).1 = true) (hl : s.led_on_ = true)
    (hd : is_nil_time s.off_deadline_ = false)
    (ht : absolute_time_diff_us now s.off_deadline_ ≤ 0) :
    (s.update now clock level).1.brightness_ = 0 ∧
    (s.update now clock level).1.led_on_ = false ∧
    (s.update now clock level).1.off_deadline_ = nil_time ∧
    (s.update now clock level).2 = (s.button_.read level).2 ++ (s.set_brightness 0).2 := by
  refine ⟨?_, ?_, ?_, ?_⟩ <;> simp [ButtonAndLed.update, h, hl, hd, ht, sb_brightness]

/-- The fading branch of `update`. -/
theorem update_fade (s : ButtonAndLed) (now clock : Nat) (level : Bool)
    (h : (s.button_.read level).1 = true) (hl : s.led_on_ = true)
    (hd : is_nil_time s.off_deadline_ = false)
    (ht : ¬ absolute_time_diff_us now s.off_deadline_ ≤ 0) :
    (s.update now clock level).1.brightness_ =
      (if fade_level (absolute_time_diff_us now s.off_deadline_) > PWM_MAX then PWM_MAX
       else fade_level (absolute_time_diff_us now s.off_deadline_)) ∧
    (s.update now clock level).1.led_on_ = true ∧
    (s.update now clock level).1.off_deadline_ = s.off_deadline_ ∧
    (s.update now clock level).2 = (s.button_.read level).2 ++
      (s.set_brightness (fade_level (absolute_time_diff_us now s.off_deadline_))).2 := by
  refine ⟨?_, ?_, ?_, ?_⟩ <;>
    simp [ButtonAndLed.update, h, hl, hd, ht, sb_brightness, sb_led_on, sb_off_deadline]

/-- The five branches of `update`, as a case distinction. -/
theorem update_cases (s : ButtonAndLed) (now : Nat) (level : Bool)
    (P : Prop)
    (h1 : (s.button_.read level).1 = false → P)
    (h2 : (s.button_.read level).1 = true → s.led_on_ = false → P)
    (h3 : (s.button_.read level).1 = true → s.led_on_ = true →
      is_nil_time s.off_deadline_ = true → P)
    (h4 : (s.button_.read level).1 = true → s.led_on_ = true →
      is_nil_time s.off_deadline_ = false → absolute_time_diff_us now s.off_deadline_ ≤ 0 → P)
    (h5 : (s.button_.read level).1 = true → s.led_on_ = true →
      is_nil_time s.off_deadline_ = false → ¬ absolute_time_diff_us now s.off_deadline_ ≤ 0 → P) :
    P := by
  cases hr : (s.button_.read level).1 with
  | false => exact h1 hr
  | true =>
    cases hl : s.led_on_ with
    | false => exact h2 hr hl
    | true =>
      cases hd : is_nil_time s.off_deadline_ with
      | true => exact h3 hr hl hd
      | false =>
        by_cases ht : absolute_time_diff_us now s.off_deadline_ ≤ 0
        · exact h4 hr hl hd ht
        · exact h5 hr hl hd ht

/-- The fields fixed by construction and `init_pwm` are not touched by `update`. -/
theorem update_config (s : ButtonAndLed) (now clock : Nat) (level : Bool) :
    (s.update now clock level).1.button_ = s.button_ ∧
    (s.update now clock level).1.led_ = s.led_ ∧
    (s.update now clock level).1.slice_ = s.slice_ ∧
    (s.update now clock level).1.channel_ = s.channel_ ∧
    (s.update now clock level).1.pwm_ok_ = s.pwm_ok_ := by
  refine update_cases s now level _ ?_ ?_ ?_ ?_ ?_
  · intro h
    refine ⟨?_, ?_, ?_, ?_, ?_⟩ <;>
      simp [ButtonAndLed.update, h, sb_button, sb_led, sb_slice, sb_channel, sb_pwm_ok]
  · intro h hl
    refine ⟨?_, ?_, ?_, ?_, ?_⟩ <;> simp [ButtonAndLed.update, h, hl]
  · intro h hl hd
    refine ⟨?_, ?_, ?_, ?_, ?_⟩ <;> simp [ButtonAndLed.update, h, hl, hd]
  · intro h hl hd ht
    refine ⟨?_, ?_, ?_, ?_, ?_⟩ <;>
      simp [ButtonAndLed.update, h, hl, hd, ht, sb_button, sb_led, sb_slice, sb_channel,
        sb_pwm_ok]
  · intro h hl hd ht
    refine ⟨?_, ?_, ?_, ?_, ?_⟩ <;>
      simp [ButtonAndLed.update, h, hl, hd, ht, sb_button, sb_led, sb_slice, sb_channel,
        sb_pwm_ok]

theorem update_brightness_le (s : ButtonAndLed) (now clock : Nat) (level : Bool)
    (h : s.brightness_ ≤ PWM_MAX) : (s.update now clock level).1.brightness_ ≤ PWM_MAX := by
  refine update_cases s now level _ ?_ ?_ ?_ ?_ ?_
  · intro hr
    rw [(update_pressed s now clock level hr).1]
  · intro hr hl
    rw [(update_idle s now clock level hr hl).1]; exact h
  · intro hr hl hd
    rw [(update_arm s now clock level hr hl hd).1]; exact h
  · intro hr hl hd ht
    rw [(update_expire s now clock level hr hl hd ht).1]; exact Nat.zero_le _
  · intro hr hl hd ht
    rw [(update_fade s now clock level hr hl hd ht).1]
    split <;> omega

/-- What `init_pwm` leaves in the pair when the channel is already claimed. -/
theorem init_pwm_conflict (s : ButtonAndLed) (t : PwmTables)
    (h : t.pwm_used_ (pwm_gpio_to_slice_num (toUInt32 s.led_.number))
      (if pwm_gpio_to_channel (toUInt32 s.led_.number) = PWM_CHAN_A then 0 else 1) = true) :
    s.init_pwm t =
      ({ s with pwm_ok_ := false, slice_ := pwm_gpio_to_slice_num (toUInt32 s.led_.number),
                channel_ := pwm_gpio_to_channel (toUInt32 s.led_.number), brightness_ := 0,
                led_on_ := false, off_deadline_ := nil_time },
       t,
       [HalCall.printf_conflict s.led_.number (pwm_gpio_to_slice_num (toUInt32 s.led_.number))
         (if pwm_gpio_to_channel (toUInt32 s.led_.number) = PWM_CHAN_A then 0 else 1)]) := by
  unfold ButtonAndLed.init_pwm
  simp only [h, if_true]

/-- What `init_pwm` does when the channel is free. -/
theorem init_pwm_granted (s : ButtonAndLed) (t : PwmTables)
    (h : t.pwm_used_ (pwm_gpio_to_slice_num (toUInt32 s.led_.number))
      (if pwm_gpio_to_channel (toUInt32 s.led_.number) = PWM_CHAN_A then 0 else 1) = false) :
    s.init_pwm t =
      ({ s with slice_ := pwm_gpio_to_slice_num (toUInt32 s.led_.number),
                channel_ := pwm_gpio_to_channel (toUInt32 s.led_.number), brightness_ := 0,
                led_on_ := false, off_deadline_ := nil_time, pwm_ok_ := true },
       { pwm_used_ := fun a b =>
           if a = pwm_gpio_to_slice_num (toUInt32 s.led_.number) ∧
              b = (if pwm_gpio_to_channel (toUInt32 s.led_.number) = PWM_CHAN_A then 0 else 1)
           then true else t.pwm_used_ a b,
         slice_inited_ := fun a =>
           if a = pwm_gpio_to_slice_num (toUInt32 s.led_.number) then true
           else t.slice_inited_ a },
       [HalCall.gpio_set_function s.led_.number GPIO_FUNC_PWM] ++
         (if !t.slice_inited_ (pwm_gpio_to_slice_num (toUInt32 s.led_.number)) then
            [HalCall.pwm_init (pwm_gpio_to_slice_num (toUInt32 s.led_.number)) CLK_DIV
              WRAP_VALUE true]
          else [HalCall.pwm_set_enabled (pwm_gpio_to_slice_num (toUInt32 s.led_.number)) true]) ++
         [HalCall.pwm_set_chan_level (pwm_gpio_to_slice_num (toUInt32 s.led_.number))
           (pwm_gpio_to_channel (toUInt32 s.led_.number)) 0]) := by
  unfold ButtonAndLed.init_pwm
  simp only [h, Bool.false_eq_true, if_false]

theorem init_pwm_brightness (s : ButtonAndLed) (t : PwmTables) :
    (s.init_pwm t).1.brightness_ = 0 := by
  cases h : t.pwm_used_ (pwm_gpio_to_slice_num (toUInt32 s.led_.number))
      (if pwm_gpio_to_channel (toUInt32 s.led_.number) = PWM_CHAN_A then 0 else 1) with
  | true => rw [init_pwm_conflict s t h]
  | false => rw [init_pwm_granted s t h]

theorem constructPairs_brightness (pins : List (Int × Int)) :
    ∀ (u : Nat) (a : ButtonAndLed), a ∈ constructPairs u pins → a.brightness_ = 0 := by
  induction pins with
  | nil => intro u a ha; simp [constructPairs] at ha
  | cons x rest ih =>
    intro u a ha
    obtain ⟨b, l⟩ := x
    simp only [constructPairs, List.mem_cons] at ha
    rcases ha with rfl | ha
    · rfl
    · exact ih _ a ha

theorem step_init_pwm_none (w : PairWorld) (i : Nat) (hs : w.pairs[i]? = none) :
    w.step (.init_pwm i) = w := by
  simp [PairWorld.step, hs]

theorem step_init_pwm_some (w : PairWorld) (i : Nat) (s : ButtonAndLed)
    (hs : w.pairs[i]? = some s) :
    w.step (.init_pwm i) =
      { pairs := w.pairs.set i (s.init_pwm w.tables).1, tables := (s.init_pwm w.tables).2.1 } := by
  simp [PairWorld.step, hs]

theorem step_update_none (w : PairWorld) (i : Nat) (now clock : Nat) (level : Bool)
    (hs : w.pairs[i]? = none) : w.step (.update i now clock level) = w := by
  simp [PairWorld.step, hs]

theorem step_update_some (w : PairWorld) (i : Nat) (now clock : Nat) (level : Bool)
    (s : ButtonAndLed) (hs : w.pairs[i]? = some s) :
    w.step (.update i now clock level) =
      { pairs := w.pairs.set i (s.update now clock level).1, tables := w.tables } := by
  simp [PairWorld.step, hs]

theorem step_brightness_le (w : PairWorld) (op : PairOp)
    (h : ∀ a ∈ w.pairs, a.brightness_ ≤ PWM_MAX) :
    ∀ a ∈ (w.step op).pairs, a.brightness_ ≤ PWM_MAX := by
  cases op with
  | init_pwm i =>
    cases hs : w.pairs[i]? with
    | none => rw [step_init_pwm_none w i hs]; exact h
    | some s =>
      rw [step_init_pwm_some w i s hs]
      intro a ha
      rcases List.mem_or_eq_of_mem_set ha with ha | rfl
      · exact h a ha
      · rw [init_pwm_brightness]; exact Nat.zero_le _
  | update i now clock level =>
    cases hs : w.pairs[i]? with
    | none => rw [step_update_none w i now clock level hs]; exact h
    | some s =>
      rw [step_update_some w i now clock level s hs]
      intro a ha
      rcases List.mem_or_eq_of_mem_set ha with ha | rfl
      · exact h a ha
      · exact update_brightness_le s now clock level (h s (List.getElem?_mem hs))

theorem run_brightness_le (ops : List PairOp) :
    ∀ w : PairWorld, (∀ a ∈ w.pairs, a.brightness_ ≤ PWM_MAX) →
      ∀ a ∈ (w.run ops).pairs, a.brightness_ ≤ PWM_MAX := by
  induction ops with
  | nil => intro w h; exact h
  | cons op rest ih =>
    intro w h
    exact ih (w.step op) (step_brightness_le w op h)

/-! ## The pin registry -/

theorem and_two_pow_ne_zero (x q : Nat) : x &&& 2 ^ q ≠ 0 ↔ x.testBit q = true := by
  constructor
  · intro h
    by_contra hb
    apply h
    apply Nat.eq_of_testBit_eq
    intro i
    rw [Nat.testBit_and, Nat.testBit_two_pow, Nat.zero_testBit]
    by_cases hqi : q = i
    · subst hqi; simp [hb]
    · simp [hqi]
  · intro hb h
    have := congrArg (fun y => y.testBit q) h
    simp [Nat.testBit_two_pow, hb] at this

theorem pin_bit (pin : Int) (h0 : 0 ≤ pin) (h1 : pin ≤ 29) :
    (1 <<< pin.toNat) % 2 ^ 32 = 2 ^ pin.toNat := by
  rw [Nat.one_shiftLeft]
  apply Nat.mod_eq_of_lt
  apply Nat.pow_lt_pow_right (by decide)
  omega

theorem ctor_out_of_range (u : Nat) (pin : Int) (input pullup invert : Bool)
    (h : pin < 0 ∨ pin > 29) :
    GPIOPin.ctor u pin input pullup invert =
      ({ pin_ := pin, is_input_ := input, valid_ := false }, u, []) := by
  simp [GPIOPin.ctor, h]

theorem ctor_claimed (u : Nat) (pin : Int) (input pullup invert : Bool)
    (h0 : 0 ≤ pin) (h1 : pin ≤ 29) (hb : u.testBit pin.toNat = true) :
    GPIOPin.ctor u pin input pullup invert =
      ({ pin_ := pin, is_input_ := input, valid_ := false }, u, []) := by
  have hr : ¬ (pin < 0 ∨ pin > 29) := by omega
  have hz : u &&& 2 ^ pin.toNat ≠ 0 := (and_two_pow_ne_zero u pin.toNat).2 hb
  simp only [GPIOPin.ctor, hr, if_false, pin_bit pin h0 h1]
  rw [if_pos hz]

theorem ctor_free (u : Nat) (pin : Int) (input pullup invert : Bool)
    (h0 : 0 ≤ pin) (h1 : pin ≤ 29) (hb : u.testBit pin.toNat = false) :
    (GPIOPin.ctor u pin input pullup invert).1 =
      { pin_ := pin, is_input_ := input, valid_ := true } ∧
    (GPIOPin.ctor u pin input pullup invert).2.1 = u ||| 2 ^ pin.toNat := by
  have hr : ¬ (pin < 0 ∨ pin > 29) := by omega
  have hz : ¬ (u &&& 2 ^ pin.toNat ≠ 0) := by
    rw [and_two_pow_ne_zero]; simp [hb]
  simp only [GPIOPin.ctor, hr, if_false, pin_bit pin h0 h1]
  rw [if_neg hz]
  exact ⟨rfl, rfl⟩

theorem dtor_invalid (h : GPIOPin) (u : Nat) (hv : h.valid_ = false) : h.dtor u = (u, []) := by
  simp [GPIOPin.dtor, hv]

theorem dtor_valid_pins (h : GPIOPin) (u : Nat) (hv : h.valid_ = true)
    (h0 : 0 ≤ h.pin_) (h1 : h.pin_ ≤ 29) :
    (h.dtor u).1 = u &&& ((2 ^ 32 - 1) ^^^ 2 ^ h.pin_.toNat) := by
  simp only [GPIOPin.dtor, hv, Bool.not_true, Bool.false_eq_true, if_false,
    pin_bit h.pin_ h0 h1]

theorem testBit_clear (u q r : Nat) (hq : q < 32) :
    (u &&& ((2 ^ 32 - 1) ^^^ 2 ^ q)).testBit r = (u.testBit r && decide (r < 32) && decide (q ≠ r)) := by
  rw [Nat.testBit_and, Nat.testBit_xor, Nat.testBit_two_pow_sub_one, Nat.testBit_two_pow]
  by_cases h1 : r < 32 <;> by_cases h2 : q = r <;> simp [h1, h2]
  omega

theorem eraseIdx_split {α : Type} (l : List α) :
    ∀ (i : Nat) (a : α), l[i]? = some a → ∃ l1 l2, l = l1 ++ a :: l2 ∧ l.eraseIdx i = l1 ++ l2 := by
  induction l with
  | nil => intro i a h; simp at h
  | cons x rest ih =>
    intro i a h
    cases i with
    | zero =>
      simp at h
      exact ⟨[], rest, by simp [h], by simp⟩
    | succ j =>
      simp at h
      obtain ⟨l1, l2, e1, e2⟩ := ih j a h
      exact ⟨x :: l1, l2, by simp [e1], by simp [e2]⟩

theorem consistent_start : PinWorld.start.Consistent := by
  refine ⟨?_, ?_, ?_⟩
  · intro p; simp [PinWorld.start, PinWorld.claimants]
  · intro q; simp [PinWorld.start]
  · intro h hh; simp [PinWorld.start] at hh

/-- Adding a handle that is not valid keeps the registry consistent. -/
theorem consistent_add_invalid (u : Nat) (live : List GPIOPin) (h : GPIOPin)
    (hv : h.valid_ = false) (hc : PinWorld.Consistent { pins_in_use := u, live := live }) :
    PinWorld.Consistent { pins_in_use := u, live := live ++ [h] } := by
  obtain ⟨c1, c2, c3⟩ := hc
  refine ⟨?_, ?_, ?_⟩
  · intro p
    have := c1 p
    simp only [PinWorld.claimants, List.countP_append, List.countP_cons, List.countP_nil, hv,
      Bool.false_and] at this ⊢
    simpa using this
  · intro q
    rw [c2 q]
    constructor
    · rintro ⟨g, hg, hgv, hgp⟩
      exact ⟨g, List.mem_append_left _ hg, hgv, hgp⟩
    · rintro ⟨g, hg, hgv, hgp⟩
      rcases List.mem_append.1 hg with hg | hg
      · exact ⟨g, hg, hgv, hgp⟩
      · simp only [List.mem_singleton] at hg
        subst hg
        rw [hv] at hgv
        exact absurd hgv (by decide)
  · intro g hg hgv
    rcases List.mem_append.1 hg with hg | hg
    · exact c3 g hg hgv
    · simp only [List.mem_singleton] at hg
      subst hg
      rw [hv] at hgv
      exact absurd hgv (by decide)

/-- Adding a valid handle for a free in-range pin, and setting its bit, keeps the
registry consistent. -/
theorem consistent_add_valid (u : Nat) (live : List GPIOPin) (pin : Int) (input : Bool)
    (h0 : 0 ≤ pin) (h1 : pin ≤ 29) (hb : u.testBit pin.toNat = false)
    (hc : PinWorld.Consistent { pins_in_use := u, live := live }) :
    PinWorld.Consistent
      { pins_in_use := u ||| 2 ^ pin.toNat,
        live := live ++ [{ pin_ := pin, is_input_ := input, valid_ := true }] } := by
  obtain ⟨c1, c2, c3⟩ := hc
  have hpin : ((pin.toNat : Nat) : Int) = pin := Int.toNat_of_nonneg h0
  have hnone : ∀ g ∈ live, ¬ (g.valid_ = true ∧ g.pin_ = pin) := by
    intro g hg hgv
    have : u.testBit pin.toNat = true := (c2 pin.toNat).2 ⟨g, hg, hgv.1, by rw [hpin]; exact hgv.2⟩
    rw [hb] at this
    exact absurd this (by decide)
  refine ⟨?_, ?_, ?_⟩
  · intro p
    have hp := c1 p
    simp only [PinWorld.claimants, List.countP_append, List.countP_cons, List.countP_nil,
      Bool.true_and] at hp ⊢
    by_cases hpp : pin = p
    · subst hpp
      have hz : List.countP (fun h => h.valid_ && decide (h.pin_ = pin)) live = 0 := by
        rw [List.countP_eq_zero]
        intro g hg hgv
        simp only [Bool.and_eq_true, decide_eq_true_eq] at hgv
        exact hnone g hg hgv
      rw [hz]
      simp
    · simp only [hpp, decide_False]
      simpa using hp
  · intro q
    rw [Nat.testBit_or, Nat.testBit_two_pow, Bool.or_eq_true, c2 q, decide_eq_true_eq]
    constructor
    · rintro (⟨g, hg, hgv, hgp⟩ | hq)
      · exact ⟨g, List.mem_append_left _ hg, hgv, hgp⟩
      · refine ⟨_, List.mem_append_right _ (List.mem_singleton.2 rfl), rfl, ?_⟩
        show pin = (q : Int)
        rw [← hq, hpin]
    · rintro ⟨g, hg, hgv, hgp⟩
      rcases List.mem_append.1 hg with hg | hg
      · exact Or.inl ⟨g, hg, hgv, hgp⟩
      · simp only [List.mem_singleton] at hg
        subst hg
        right
        have : pin = (q : Int) := hgp
        omega
  · intro g hg hgv
    rcases List.mem_append.1 hg with hg | hg
    · exact c3 g hg hgv
    · simp only [List.mem_singleton] at hg
      subst hg
      exact ⟨h0, h1⟩

/-- Removing a handle that is not valid keeps the registry consistent. -/
theorem consistent_remove_invalid (u : Nat) (l1 l2 : List GPIOPin) (h : GPIOPin)
    (hv : h.valid_ = false)
    (hc : PinWorld.Consistent { pins_in_use := u, live := l1 ++ h :: l2 }) :
    PinWorld.Consistent { pins_in_use := u, live := l1 ++ l2 } := by
  obtain ⟨c1, c2, c3⟩ := hc
  refine ⟨?_, ?_, ?_⟩
  · intro p
    have := c1 p
    simp only [PinWorld.claimants, List.countP_append, List.countP_cons, hv,
      Bool.false_and] at this ⊢
    simpa using this
  · intro q
    rw [c2 q]
    constructor
    · rintro ⟨g, hg, hgv, hgp⟩
      simp only [List.mem_append, List.mem_cons] at hg
      rcases hg with hg | rfl | hg
      · exact ⟨g, List.mem_append_left _ hg, hgv, hgp⟩
      · rw [hv] at hgv; exact absurd hgv (by decide)
      · exact ⟨g, List.mem_append_right _ hg, hgv, hgp⟩
    · rintro ⟨g, hg, hgv, hgp⟩
      refine ⟨g, ?_, hgv, hgp⟩
      simp only [List.mem_append, List.mem_cons] at hg ⊢
      tauto
  · intro g hg hgv
    apply c3 g _ hgv
    simp only [List.mem_append, List.mem_cons] at hg ⊢
    tauto

/-- Removing a valid handle, and clearing its bit, keeps the registry consistent. -/
theorem consistent_remove_valid (u : Nat) (l1 l2 : List GPIOPin) (h : GPIOPin)
    (hv : h.valid_ = true)
    (hc : PinWorld.Consistent { pins_in_use := u, live := l1 ++ h :: l2 }) :
    PinWorld.Consistent
      { pins_in_use := u &&& ((2 ^ 32 - 1) ^^^ 2 ^ h.pin_.toNat), live := l1 ++ l2 } := by
  obtain ⟨c1, c2, c3⟩ := hc
  have hr : 0 ≤ h.pin_ ∧ h.pin_ ≤ 29 := c3 h (by simp) hv
  have hpin : ((h.pin_.toNat : Nat) : Int) = h.pin_ := Int.toNat_of_nonneg hr.1
  have hq : h.pin_.toNat < 32 := by omega
  -- no other valid handle has the pin of `h`
  have hothers : ∀ g ∈ l1 ++ l2, ¬ (g.valid_ = true ∧ g.pin_ = h.pin_) := by
    have hp := c1 h.pin_
    simp only [PinWorld.claimants, List.countP_append, List.countP_cons, hv, Bool.true_and,
      decide_True, if_true] at hp
    have hz : List.countP (fun g => g.valid_ && decide (g.pin_ = h.pin_)) (l1 ++ l2) = 0 := by
      rw [List.countP_append]; omega
    rw [List.countP_eq_zero] at hz
    intro g hg hgv
    apply hz g hg
    simp [hgv.1, hgv.2]
  refine ⟨?_, ?_, ?_⟩
  · intro p
    have := c1 p
    simp only [PinWorld.claimants, List.countP_append, List.countP_cons] at this ⊢
    omega
  · intro q
    rw [testBit_clear u h.pin_.toNat q hq]
    simp only [Bool.and_eq_true, decide_eq_true_eq, c2 q]
    constructor
    · rintro ⟨⟨⟨g, hg, hgv, hgp⟩, _⟩, hne⟩
      simp only [List.mem_append, List.mem_cons] at hg
      rcases hg with hg | rfl | hg
      · exact ⟨g, List.mem_append_left _ hg, hgv, hgp⟩
      · exfalso; apply hne; omega
      · exact ⟨g, List.mem_append_right _ hg, hgv, hgp⟩
    · rintro ⟨g, hg, hgv, hgp⟩
      have hg' : g ∈ l1 ++ h :: l2 := by
        simp only [List.mem_append, List.mem_cons] at hg ⊢
        tauto
      have hgr := c3 g hg' hgv
      refine ⟨⟨⟨g, hg', hgv, hgp⟩, by omega⟩, ?_⟩
      intro e
      apply hothers g hg
      refine ⟨hgv, ?_⟩
      omega
  · intro g hg hgv
    apply c3 g _ hgv
    simp only [List.mem_append, List.mem_cons] at hg ⊢
    tauto

theorem consistent_step (w : PinWorld) (op : PinOp) (hc : w.Consistent) :
    (w.step op).Consistent := by
  obtain ⟨u, live⟩ := w
  cases op with
  | construct pin input pullup invert =>
    simp only [PinWorld.step]
    by_cases hr : pin < 0 ∨ pin > 29
    · rw [ctor_out_of_range u pin input pullup invert hr]
      exact consistent_add_invalid u live _ rfl hc
    · have h0 : 0 ≤ pin := by omega
      have h1 : pin ≤ 29 := by omega
      cases hb : u.testBit pin.toNat with
      | true =>
        rw [ctor_claimed u pin input pullup invert h0 h1 hb]
        exact consistent_add_invalid u live _ rfl hc
      | false =>
        obtain ⟨e1, e2⟩ := ctor_free u pin input pullup invert h0 h1 hb
        rw [e1, e2]
        exact consistent_add_valid u live pin input h0 h1 hb hc
  | destroy idx =>
    simp only [PinWorld.step]
    cases hs : live[idx]? with
    | none => exact hc
    | some h =>
      obtain ⟨l1, l2, e1, e2⟩ := eraseIdx_split live idx h hs
      simp only
      subst e1
      rw [e2]
      cases hv : h.valid_ with
      | false =>
        rw [dtor_invalid h u hv]
        exact consistent_remove_invalid u l1 l2 h hv hc
      | true =>
        have hr : 0 ≤ h.pin_ ∧ h.pin_ ≤ 29 := hc.2.2 h (by simp) hv
        rw [dtor_valid_pins h u hv hr.1 hr.2]
        exact consistent_remove_valid u l1 l2 h hv hc

theorem consistent_run (ops : List PinOp) :
    ∀ w : PinWorld, w.Consistent → (w.run ops).Consistent := by
  induction ops with
  | nil => intro w h; exact h
  | cons op rest ih => intro w h; exact ih (w.step op) (consistent_step w op h)

/-! ## The PWM tables -/

theorem init_pwm_conflict_fields (s : ButtonAndLed) (t : PwmTables)
    (h : t.pwm_used_ s.led_slice s.led_ch_idx = true) :
    (s.init_pwm t).1.pwm_ok_ = false ∧ (s.init_pwm t).1.slice_ = s.led_slice ∧
    (s.init_pwm t).1.channel_ = s.led_channel ∧ (s.init_pwm t).1.led_ = s.led_ ∧
    (s.init_pwm t).2.1 = t := by
  rw [init_pwm_conflict s t h]
  exact ⟨rfl, rfl, rfl, rfl, rfl⟩

theorem init_pwm_granted_fields (s : ButtonAndLed) (t : PwmTables)
    (h : t.pwm_used_ s.led_slice s.led_ch_idx = false) :
    (s.init_pwm t).1.pwm_ok_ = true ∧ (s.init_pwm t).1.slice_ = s.led_slice ∧
    (s.init_pwm t).1.channel_ = s.led_channel ∧ (s.init_pwm t).1.led_ = s.led_ ∧
    (∀ a b, (s.init_pwm t).2.1.pwm_used_ a b =
      if a = s.led_slice ∧ b = s.led_ch_idx then true else t.pwm_used_ a b) := by
  rw [init_pwm_granted s t h]
  exact ⟨rfl, rfl, rfl, rfl, fun _ _ => rfl⟩

theorem getElem?_set_of_some {α : Type} (l : List α) (i k : Nat) (x y : α)
    (h : l[i]? = some x) : (l.set i y)[k]? = if i = k then some y else l[k]? := by
  have hi : i < l.length := by
    by_contra hn
    rw [List.getElem?_eq_none (by omega)] at h
    exact absurd h (by simp)
  rw [List.getElem?_set]
  simp [hi]

theorem led_ids_congr (a b : ButtonAndLed) (h : a.led_ = b.led_) :
    a.led_slice = b.led_slice ∧ a.led_channel = b.led_channel ∧ a.led_ch_idx = b.led_ch_idx := by
  simp [ButtonAndLed.led_slice, ButtonAndLed.led_channel, ButtonAndLed.led_ch_idx, h]

/-- Replacing a pair by one with the same PWM fields keeps `Exclusive`. -/
theorem exclusive_set_same (w : PairWorld) (i : Nat) (s s1 : ButtonAndLed)
    (hs : w.pairs[i]? = some s) (h1 : s1.pwm_ok_ = s.pwm_ok_) (h2 : s1.slice_ = s.slice_)
    (h3 : s1.channel_ = s.channel_) (h4 : s1.led_ = s.led_) (hc : w.Exclusive) :
    PairWorld.Exclusive { pairs := w.pairs.set i s1, tables := w.tables } := by
  obtain ⟨cA, cB⟩ := hc
  obtain ⟨e1, e2, e3⟩ := led_ids_congr s1 s h4
  have key : ∀ (k : Nat) (a : ButtonAndLed), (w.pairs.set i s1)[k]? = some a →
      ∃ a0, w.pairs[k]? = some a0 ∧ a.pwm_ok_ = a0.pwm_ok_ ∧ a.slice_ = a0.slice_ ∧
        a.channel_ = a0.channel_ ∧ a.led_ = a0.led_ := by
    intro k a hk
    rw [getElem?_set_of_some w.pairs i k s s1 hs] at hk
    by_cases hik : i = k
    · rw [if_pos hik] at hk
      cases hk
      exact ⟨s, hik ▸ hs, h1, h2, h3, h4⟩
    · rw [if_neg hik] at hk
      exact ⟨a, hk, rfl, rfl, rfl, rfl⟩
  refine ⟨?_, ?_⟩
  · intro k a hk hok
    obtain ⟨a0, hk0, f1, f2, f3, f4⟩ := key k a hk
    obtain ⟨g1, g2, g3⟩ := led_ids_congr a a0 f4
    have := cA k a0 hk0 (f1 ▸ hok)
    rw [f2, f3, g1, g2, g3]
    exact this
  · intro k l a b hkl hk hl hoa hob
    obtain ⟨a0, hk0, f1, f2, f3, _⟩ := key k a hk
    obtain ⟨b0, hl0, g1, g2, g3, _⟩ := key l b hl
    rw [f2, f3, g2, g3]
    exact cB k l a0 b0 hkl hk0 hl0 (f1 ▸ hoa) (g1 ▸ hob)

/-- Replacing a pair by one that is not in PWM mode keeps `Exclusive`. -/
theorem exclusive_set_degraded (w : PairWorld) (i : Nat) (s s1 : ButtonAndLed)
    (hs : w.pairs[i]? = some s) (h1 : s1.pwm_ok_ = false) (hc : w.Exclusive) :
    PairWorld.Exclusive { pairs := w.pairs.set i s1, tables := w.tables } := by
  obtain ⟨cA, cB⟩ := hc
  have key : ∀ (k : Nat) (a : ButtonAndLed), (w.pairs.set i s1)[k]? = some a →
      a.pwm_ok_ = true → w.pairs[k]? = some a := by
    intro k a hk hok
    rw [getElem?_set_of_some w.pairs i k s s1 hs] at hk
    by_cases hik : i = k
    · rw [if_pos hik] at hk
      cases hk
      rw [h1] at hok
      exact absurd hok (by decide)
    · rw [if_neg hik] at hk
      exact hk
  refine ⟨?_, ?_⟩
  · intro k a hk hok
    exact cA k a (key k a hk hok) hok
  · intro k l a b hkl hk hl hoa hob
    exact cB k l a b hkl (key k a hk hoa) (key l b hl hob) hoa hob

/-- Granting a free channel to a pair keeps `Exclusive`. -/
theorem exclusive_set_granted (w : PairWorld) (i : Nat) (s s1 : ButtonAndLed) (t1 : PwmTables)
    (hs : w.pairs[i]? = some s) (hfree : w.tables.pwm_used_ s.led_slice s.led_ch_idx = false)
    (h2 : s1.slice_ = s.led_slice) (h3 : s1.channel_ = s.led_channel) (h4 : s1.led_ = s.led_)
    (ht : ∀ a b, t1.pwm_used_ a b =
      if a = s.led_slice ∧ b = s.led_ch_idx then true else w.tables.pwm_used_ a b)
    (hc : w.Exclusive) :
    PairWorld.Exclusive { pairs := w.pairs.set i s1, tables := t1 } := by
  obtain ⟨cA, cB⟩ := hc
  obtain ⟨e1, e2, e3⟩ := led_ids_congr s1 s h4
  have hmono : ∀ a b, w.tables.pwm_used_ a b = true → t1.pwm_used_ a b = true := by
    intro a b hab
    rw [ht a b]
    split
    · rfl
    · exact hab
  -- a pair in PWM mode at another position has an identity different from the new one
  have hother : ∀ (k : Nat) (b : ButtonAndLed), w.pairs[k]? = some b → b.pwm_ok_ = true →
      ¬ (s1.slice_ = b.slice_ ∧ s1.channel_ = b.channel_) := by
    intro k b hk hob hsame
    obtain ⟨b1, b2, b3⟩ := cA k b hk hob
    have hsl : s.led_slice = b.led_slice := by rw [← h2, hsame.1, b1]
    have hch : s.led_channel = b.led_channel := by rw [← h3, hsame.2, b2]
    have hidx : s.led_ch_idx = b.led_ch_idx := by
      simp only [ButtonAndLed.led_ch_idx, hch]
    rw [hsl, hidx, b3] at hfree
    exact absurd hfree (by decide)
  refine ⟨?_, ?_⟩
  · intro k a hk hok
    rw [getElem?_set_of_some w.pairs i k s s1 hs] at hk
    by_cases hik : i = k
    · rw [if_pos hik] at hk
      cases hk
      rw [e1, e2, e3]
      refine ⟨h2, h3, ?_⟩
      rw [ht]
      simp
    · rw [if_neg hik] at hk
      obtain ⟨a1, a2, a3⟩ := cA k a hk hok
      exact ⟨a1, a2, hmono _ _ a3⟩
  · intro k l a b hkl hk hl hoa hob
    rw [getElem?_set_of_some w.pairs i k s s1 hs] at hk
    rw [getElem?_set_of_some w.pairs i l s s1 hs] at hl
    by_cases hik : i = k
    · rw [if_pos hik] at hk
      cases hk
      have hil : ¬ i = l := fun e => hkl (hik ▸ e)
      rw [if_neg hil] at hl
      exact hother l b hl hob
    · rw [if_neg hik] at hk
      by_cases hil : i = l
      · rw [if_pos hil] at hl
        cases hl
        intro hsame
        exact hother k a hk hoa ⟨hsame.1.symm, hsame.2.symm⟩
      · rw [if_neg hil] at hl
        exact cB k l a b hkl hk hl hoa hob

theorem exclusive_step (w : PairWorld) (op : PairOp) (hc : w.Exclusive) :
    (w.step op).Exclusive := by
  cases op with
  | init_pwm i =>
    cases hs : w.pairs[i]? with
    | none => rw [step_init_pwm_none w i hs]; exact hc
    | some s =>
      rw [step_init_pwm_some w i s hs]
      cases hu : w.tables.pwm_used_ s.led_slice s.led_ch_idx with
      | true =>
        obtain ⟨f1, _, _, _, f5⟩ := init_pwm_conflict_fields s w.tables hu
        rw [f5]
        exact exclusive_set_degraded w i s _ hs f1 hc
      | false =>
        obtain ⟨_, f2, f3, f4, f5⟩ := init_pwm_granted_fields s w.tables hu
        exact exclusive_set_granted w i s _ _ hs hu f2 f3 f4 f5 hc
  | update i now clock level =>
    cases hs : w.pairs[i]? with
    | none => rw [step_update_none w i now clock level hs]; exact hc
    | some s =>
      rw [step_update_some w i now clock level s hs]
      obtain ⟨_, g2, g3, g4, g5⟩ := update_config s now clock level
      exact exclusive_set_same w i s _ hs g5 g3 g4 g2 hc

theorem exclusive_run (ops : List PairOp) :
    ∀ w : PairWorld, w.Exclusive → (w.run ops).Exclusive := by
  induction ops with
  | nil => intro w h; exact h
  | cons op rest ih => intro w h; exact ih (w.step op) (exclusive_step w op h)

theorem constructPairs_pwm_ok (pins : List (Int × Int)) :
    ∀ (u : Nat) (a : ButtonAndLed), a ∈ constructPairs u pins → a.pwm_ok_ = false := by
  induction pins with
  | nil => intro u a ha; simp [constructPairs] at ha
  | cons x rest ih =>
    intro u a ha
    obtain ⟨b, l⟩ := x
    simp only [constructPairs, List.mem_cons] at ha
    rcases ha with rfl | ha
    · rfl
    · exact ih _ a ha

theorem exclusive_boot (pins : List (Int × Int)) : (PairWorld.boot pins).Exclusive := by
  have hoff : ∀ (k : Nat) (a : ButtonAndLed), (PairWorld.boot pins).pairs[k]? = some a →
      a.pwm_ok_ = true → False := by
    intro k a hk hok
    have := constructPairs_pwm_ok pins 0 a (List.getElem?_mem hk)
    rw [this] at hok
    exact absurd hok (by decide)
  exact ⟨fun k a hk hok => (hoff k a hk hok).elim,
    fun k _ a _ _ hk _ hoa _ => (hoff k a hk hoa).elim⟩

/-! ## The brightness state machine -/

/-- The whole pair state after an `update` that reads the button as pressed. -/
theorem update_pressed_state (s : ButtonAndLed) (now clock : Nat) (level : Bool)
    (h : (s.button_.read level).1 = false) :
    (s.update now clock level).1 =
      { s with brightness_ := PWM_MAX, led_on_ := true, off_deadline_ := nil_time } := by
  by_cases hp : s.pwm_ok_ = true <;>
    simp [ButtonAndLed.update, h, ButtonAndLed.set_brightness, hp]

theorem updates_pressed (ticks : List (Nat × Nat × Bool)) :
    ∀ s : ButtonAndLed, (∀ t ∈ ticks, (s.button_.read t.2.2).1 = false) →
      s.brightness_ = PWM_MAX → s.led_on_ = true → s.off_deadline_ = nil_time →
      s.updates ticks = s := by
  induction ticks with
  | nil => intro s _ _ _ _; rfl
  | cons t rest ih =>
    intro s hall hb hl hd
    obtain ⟨now, clock, level⟩ := t
    have hp : (s.button_.read level).1 = false := hall (now, clock, level) (List.mem_cons_self _ _)
    have hsame : (s.update now clock level).1 = s := by
      rw [update_pressed_state s now clock level hp]
      cases s
      simp only at hb hl hd
      simp [hb, hl, hd]
    simp only [ButtonAndLed.updates]
    rw [hsame]
    exact ih s (fun t ht => hall t (List.mem_cons_of_mem _ ht)) hb hl hd

/-! ## Time arithmetic -/

/-- For timestamps in the range of `absolute_time_t` (at most `INT64_MAX`), the difference
is the exact integer difference. -/
theorem diff_us_eq (t_from t_to : Nat) (h1 : t_from < 2 ^ 63) (h2 : t_to < 2 ^ 63) :
    absolute_time_diff_us t_from t_to = (t_to : Int) - (t_from : Int) := by
  unfold absolute_time_diff_us toInt64
  split <;> omega

/-- The fade level for a remaining time that fits the 16-bit result: `rem_us / 1000`. -/
theorem fade_level_eq (r : Nat) (h : r < 65536000) : fade_level (r : Int) = r / 1000 := by
  have e : (((r : Int) % 2 ^ 64).toNat) = r := by omega
  have h1 : (1000 * 1000 % 2 ^ 32 : Nat) = 1000000 := by norm_num
  unfold fade_level toUInt64 PWM_MAX RELEASE
  rw [e]
  simp only [h1]
  clear e h1
  have m1 : 1000 * r % 2 ^ 64 = 1000 * r := Nat.mod_eq_of_lt (by omega)
  have m2 : 1000 * r / 1000000 = r / 1000 := by omega
  rw [m1, m2]
  exact Nat.mod_eq_of_lt (by omega)

theorem is_nil_time_false (t : Nat) (h : t ≠ nil_time) : is_nil_time t = false := by
  simp only [is_nil_time, beq_eq_false_iff_ne, ne_eq]
  exact h

/-- The fading branch for in-range timestamps and a remaining time below 65.536 s:
the stored brightness is `rem_us / 1000`, clamped to `PWM_MAX`. -/
theorem update_fading (s : ButtonAndLed) (now clock : Nat) (level : Bool)
    (hrel : (s.button_.read level).1 = true) (hon : s.led_on_ = true)
    (hset : s.off_deadline_ ≠ nil_time)
    (hd : s.off_deadline_ ≤ INT64_MAX)
    (hlt : now < s.off_deadline_) (hrem : s.off_deadline_ - now < 65536000) :
    (s.update now clock level).1.brightness_ = min ((s.off_deadline_ - now) / 1000) PWM_MAX ∧
    (s.update now clock level).1.led_on_ = true ∧
    (s.update now clock level).1.off_deadline_ = s.off_deadline_ := by
  have hI : INT64_MAX = 2 ^ 63 - 1 := rfl
  have hdiff : absolute_time_diff_us now s.off_deadline_ = ((s.off_deadline_ - now : Nat) : Int) := by
    rw [diff_us_eq now s.off_deadline_ (by omega) (by omega)]
    omega
  have ht : ¬ absolute_time_diff_us now s.off_deadline_ ≤ 0 := by
    rw [hdiff]; omega
  obtain ⟨f1, f2, f3, _⟩ := update_fade s now clock level hrel hon (is_nil_time_false _ hset) ht
  refine ⟨?_, f2, f3⟩
  rw [f1, hdiff, fade_level_eq _ hrem]
  split <;> omega

/-- A fading `update` followed by a later one before the deadline: the second call stores
the same brightness it would store when applied to the original state. -/
theorem update_fading_then (s : ButtonAndLed) (t1 t2 c1 c2 : Nat) (l1 l2 : Bool)
    (hr1 : (s.button_.read l1).1 = true) (hr2 : (s.button_.read l2).1 = true)
    (hon : s.led_on_ = true) (hset : s.off_deadline_ ≠ nil_time)
    (hd : s.off_deadline_ ≤ INT64_MAX)
    (h1 : t1 < s.off_deadline_) (h2 : t2 < s.off_deadline_)
    (hrem1 : s.off_deadline_ - t1 < 65536000) (hrem2 : s.off_deadline_ - t2 < 65536000) :
    ((s.update t1 c1 l1).1.update t2 c2 l2).1.brightness_ =
      min ((s.off_deadline_ - t2) / 1000) PWM_MAX := by
  obtain ⟨_, g2, g3⟩ := update_fading s t1 c1 l1 hr1 hon hset hd h1 hrem1
  have gb := (update_config s t1 c1 l1).1
  have := (update_fading (s.update t1 c1 l1).1 t2 c2 l2 (by rw [gb]; exact hr2) g2
    (by rw [g3]; exact hset) (by rw [g3]; exact hd) (by rw [g3]; exact h2)
    (by rw [g3]; exact hrem2)).1
  rw [this, g3]

/-- Where the 16-bit cast of the level does not wrap (less than 65 536 000 us remaining), a
later `update` before the deadline never stores a higher brightness than an earlier one. -/
theorem fade_monotone_before_wrap (s : ButtonAndLed) (t1 t2 c1 c2 : Nat) (l1 l2 : Bool)
    (hr1 : (s.button_.read l1).1 = true) (hr2 : (s.button_.read l2).1 = true)
    (hon : s.led_on_ = true) (hset : s.off_deadline_ ≠ nil_time)
    (hd : s.off_deadline_ ≤ INT64_MAX)
    (h12 : t1 < t2) (h2 : t2 < s.off_deadline_) (hrem : s.off_deadline_ - t1 < 65536000) :
    (s.update t2 c2 l2).1.brightness_ ≤ (s.update t1 c1 l1).1.brightness_ ∧
    ((s.update t1 c1 l1).1.update t2 c2 l2).1.brightness_ ≤
      (s.update t1 c1 l1).1.brightness_ := by
  have e1 := (update_fading s t1 c1 l1 hr1 hon hset hd (by omega) hrem).1
  have e2 := (update_fading s t2 c2 l2 hr2 hon hset hd h2 (by omega)).1
  have e3 := update_fading_then s t1 t2 c1 c2 l1 l2 hr1 hr2 hon hset hd (by omega) h2 hrem
    (by omega)
  rw [e1, e2, e3]
  have hmono : (s.off_deadline_ - t2) / 1000 ≤ (s.off_deadline_ - t1) / 1000 :=
    Nat.div_le_div_right (by omega)
  have : min ((s.off_deadline_ - t2) / 1000) PWM_MAX ≤ min ((s.off_deadline_ - t1) / 1000) PWM_MAX := by
    omega
  exact ⟨this, this⟩

/-- Away from the end of time, `make_timeout_time_ms` adds the delay to the clock reading. -/
theorem make_timeout_eq (clock ms : Nat) (h : clock + ms * 1000 ≤ INT64_MAX) :
    make_timeout_time_ms clock ms = clock + ms * 1000 := by
  have hI : INT64_MAX = 2 ^ 63 - 1 := rfl
  have hm : (clock + ms * 1000) % 2 ^ 64 = clock + ms * 1000 := Nat.mod_eq_of_lt (by omega)
  simp only [make_timeout_time_ms, hm]
  rw [if_neg (by omega)]

/-! ## HAL traces -/

theorem read_trace_no_write (h : GPIOPin) (level : Bool) :
    ∀ c ∈ (h.read level).2, c.isPwmLevelWrite = false ∧ c.isPinWrite = false := by
  intro c hc
  cases hv : h.valid_ <;> simp [GPIOPin.read, hv] at hc
  subst hc
  exact ⟨rfl, rfl⟩

theorem write_trace (h : GPIOPin) (value : Bool) :
    h.write value = if h.valid_ = true then [HalCall.gpio_put h.pin_ value] else [] := by
  cases hv : h.valid_ <;> simp [GPIOPin.write, hv]

theorem sb_trace_degraded (s : ButtonAndLed) (l : Nat) (hp : s.pwm_ok_ = false) :
    ∀ c ∈ (s.set_brightness l).2, c.isPwmLevelWrite = false := by
  intro c hc
  rw [sb_trace, hp, write_trace] at hc
  simp only [Bool.false_eq_true, if_false] at hc
  split at hc
  · simp only [List.mem_singleton] at hc
    subst hc
    rfl
  · simp at hc

/-- An `update` of a pair that is not in PWM mode writes no PWM channel level. -/
theorem update_trace_degraded (s : ButtonAndLed) (now clock : Nat) (level : Bool)
    (hp : s.pwm_ok_ = false) : ∀ c ∈ (s.update now clock level).2, c.isPwmLevelWrite = false := by
  have hread := read_trace_no_write s.button_ level
  have hsb := sb_trace_degraded s
  refine update_cases s now level _ ?_ ?_ ?_ ?_ ?_
  · intro h c hc
    rw [(update_pressed s now clock level h).2.2.2] at hc
    rcases List.mem_append.1 hc with hc | hc
    · exact (hread c hc).1
    · exact hsb _ hp c hc
  · intro h hl c hc
    rw [(update_idle s now clock level h hl).2] at hc
    exact (hread c hc).1
  · intro h hl hd c hc
    rw [(update_arm s now clock level h hl hd).2.2.2] at hc
    exact (hread c hc).1
  · intro h hl hd ht c hc
    rw [(update_expire s now clock level h hl hd ht).2.2.2] at hc
    rcases List.mem_append.1 hc with hc | hc
    · exact (hread c hc).1
    · exact hsb _ hp c hc
  · intro h hl hd ht c hc
    rw [(update_fade s now clock level h hl hd ht).2.2.2] at hc
    rcases List.mem_append.1 hc with hc | hc
    · exact (hread c hc).1
    · exact hsb _ hp c hc

/-- The fields of the pair after `init_pwm`, whichever branch it takes. -/
theorem init_pwm_fields (s : ButtonAndLed) (t : PwmTables) :
    (s.init_pwm t).1.button_ = s.button_ ∧ (s.init_pwm t).1.led_ = s.led_ ∧
    (s.init_pwm t).1.brightness_ = 0 ∧ (s.init_pwm t).1.led_on_ = false ∧
    (s.init_pwm t).1.off_deadline_ = nil_time ∧
    (s.init_pwm t).1.slice_ = s.led_slice ∧ (s.init_pwm t).1.channel_ = s.led_channel := by
  cases h : t.pwm_used_ s.led_slice s.led_ch_idx with
  | true =>
    rw [init_pwm_conflict s t h]
    exact ⟨rfl, rfl, rfl, rfl, rfl, rfl, rfl⟩
  | false =>
    rw [init_pwm_granted s t h]
    exact ⟨rfl, rfl, rfl, rfl, rfl, rfl, rfl⟩

theorem read_invalid (h : GPIOPin) (level : Bool) (hv : h.valid_ = false) :
    h.read level = (false, []) := by
  simp [GPIOPin.read, hv]


/-- A handle the constructor made valid is for an in-range pin. -/
theorem ctor_valid_range (u : Nat) (pin : Int) (input pullup invert : Bool)
    (hv : (GPIOPin.ctor u pin input pullup invert).1.valid_ = true) :
    0 ≤ pin ∧ pin ≤ 29 ∧ (GPIOPin.ctor u pin input pullup invert).1.pin_ = pin := by
  by_cases hr : pin < 0 ∨ pin > 29
  · rw [ctor_out_of_range u pin input pullup invert hr] at hv
    simp at hv
  · have h0 : 0 ≤ pin := by omega
    have h1 : pin ≤ 29 := by omega
    cases hb : u.testBit pin.toNat with
    | true =>
      rw [ctor_claimed u pin input pullup invert h0 h1 hb] at hv
      simp at hv
    | false =>
      rw [(ctor_free u pin input pullup invert h0 h1 hb).1]
      exact ⟨h0, h1, rfl⟩

theorem testBit_high (u r : Nat) (hu : u < 2 ^ 32) (hr : 32 ≤ r) : u.testBit r = false := by
  apply Nat.testBit_lt_two_pow
  calc u < 2 ^ 32 := hu
    _ ≤ 2 ^ r := Nat.pow_le_pow_right (by decide) hr


/-! ## HAL calls of a run -/

theorem stepCalls_init_pwm_none (w : PairWorld) (i : Nat) (hs : w.pairs[i]? = none) :
    w.stepCalls (.init_pwm i) = [] := by
  simp [PairWorld.stepCalls, hs]

theorem stepCalls_init_pwm_some (w : PairWorld) (i : Nat) (s : ButtonAndLed)
    (hs : w.pairs[i]? = some s) : w.stepCalls (.init_pwm i) = (s.init_pwm w.tables).2.2 := by
  simp [PairWorld.stepCalls, hs]

theorem stepCalls_update_none (w : PairWorld) (i : Nat) (now clock : Nat) (level : Bool)
    (hs : w.pairs[i]? = none) : w.stepCalls (.update i now clock level) = [] := by
  simp [PairWorld.stepCalls, hs]

theorem stepCalls_update_some (w : PairWorld) (i : Nat) (now clock : Nat) (level : Bool)
    (s : ButtonAndLed) (hs : w.pairs[i]? = some s) :
    w.stepCalls (.update i now clock level) = (s.update now clock level).2 := by
  simp [PairWorld.stepCalls, hs]

/-- The HAL calls of `init_pwm` in its two branches. -/
theorem init_pwm_trace (s : ButtonAndLed) (t : PwmTables) :
    (t.pwm_used_ s.led_slice s.led_ch_idx = true →
      (s.init_pwm t).2.2 = [HalCall.printf_conflict s.led_.number s.led_slice s.led_ch_idx]) ∧
    (t.pwm_used_ s.led_slice s.led_ch_idx = false →
      (s.init_pwm t).2.2 =
        [HalCall.gpio_set_function s.led_.number GPIO_FUNC_PWM,
         (if t.slice_inited_ s.led_slice = true then HalCall.pwm_set_enabled s.led_slice true
          else HalCall.pwm_init s.led_slice CLK_DIV WRAP_VALUE true),
         HalCall.pwm_set_chan_level s.led_slice s.led_channel 0]) := by
  constructor
  · intro h
    rw [init_pwm_conflict s t h]
    rfl
  · intro h
    rw [init_pwm_granted s t h]
    cases hi : t.slice_inited_ s.led_slice <;>
      simp [ButtonAndLed.led_slice, ButtonAndLed.led_channel] at hi ⊢ <;> simp [hi]

/-- Every PWM level `set_brightness` writes is at most `PWM_MAX`. -/
theorem sb_trace_level (s : ButtonAndLed) (l sl ch lv : Nat)
    (h : HalCall.pwm_set_chan_level sl ch lv ∈ (s.set_brightness l).2) : lv ≤ PWM_MAX := by
  rw [sb_trace, write_trace] at h
  split at h
  · simp only [List.mem_singleton, HalCall.pwm_set_chan_level.injEq] at h
    obtain ⟨_, _, h3⟩ := h
    rw [h3]
    split <;> omega
  · split at h <;> simp at h

theorem read_trace_level (g : GPIOPin) (level : Bool) (sl ch lv : Nat) :
    ¬ HalCall.pwm_set_chan_level sl ch lv ∈ (g.read level).2 := by
  intro h
  have := (read_trace_no_write g level _ h).1
  simp [HalCall.isPwmLevelWrite] at this

/-- Every PWM level `update` writes is at most `PWM_MAX`. -/
theorem update_trace_level (s : ButtonAndLed) (now clock : Nat) (level : Bool) (sl ch lv : Nat)
    (h : HalCall.pwm_set_chan_level sl ch lv ∈ (s.update now clock level).2) :
    lv ≤ PWM_MAX := by
  have hread := read_trace_level s.button_ level sl ch lv
  revert h
  refine update_cases s now level _ ?_ ?_ ?_ ?_ ?_
  · intro hr hc
    rw [(update_pressed s now clock level hr).2.2.2] at hc
    rcases List.mem_append.1 hc with hc | hc
    · exact absurd hc hread
    · exact sb_trace_level s _ sl ch lv hc
  · intro hr hl hc
    rw [(update_idle s now clock level hr hl).2] at hc
    exact absurd hc hread
  · intro hr hl hd hc
    rw [(update_arm s now clock level hr hl hd).2.2.2] at hc
    exact absurd hc hread
  · intro hr hl hd ht hc
    rw [(update_expire s now clock level hr hl hd ht).2.2.2] at hc
    rcases List.mem_append.1 hc with hc | hc
    · exact absurd hc hread
    · exact sb_trace_level s _ sl ch lv hc
  · intro hr hl hd ht hc
    rw [(update_fade s now clock level hr hl hd ht).2.2.2] at hc
    rcases List.mem_append.1 hc with hc | hc
    · exact absurd hc hread
    · exact sb_trace_level s _ sl ch lv hc

/-- The only PWM level `init_pwm` writes is 0. -/
theorem init_pwm_trace_level (s : ButtonAndLed) (t : PwmTables) (sl ch lv : Nat)
    (h : HalCall.pwm_set_chan_level sl ch lv ∈ (s.init_pwm t).2.2) : lv = 0 := by
  cases hu : t.pwm_used_ s.led_slice s.led_ch_idx with
  | true =>
    rw [(init_pwm_trace s t).1 hu] at h
    simp at h
  | false =>
    rw [(init_pwm_trace s t).2 hu] at h
    simp only [List.mem_cons, List.mem_singleton, List.not_mem_nil, or_false] at h
    rcases h with h | h | h
    · simp at h
    · split at h <;> simp at h
    · simp only [HalCall.pwm_set_chan_level.injEq] at h
      exact h.2.2

theorem stepCalls_level (w : PairWorld) (op : PairOp) (sl ch lv : Nat)
    (h : HalCall.pwm_set_chan_level sl ch lv ∈ w.stepCalls op) : lv ≤ PWM_MAX := by
  cases op with
  | init_pwm i =>
    cases hs : w.pairs[i]? with
    | none => rw [stepCalls_init_pwm_none w i hs] at h; simp at h
    | some s =>
      rw [stepCalls_init_pwm_some w i s hs] at h
      rw [init_pwm_trace_level s w.tables sl ch lv h]
      exact Nat.zero_le _
  | update i now clock level =>
    cases hs : w.pairs[i]? with
    | none => rw [stepCalls_update_none w i now clock level hs] at h; simp at h
    | some s =>
      rw [stepCalls_update_some w i now clock level s hs] at h
      exact update_trace_level s now clock level sl ch lv h

theorem runCalls_level (ops : List PairOp) :
    ∀ (w : PairWorld) (sl ch lv : Nat),
      HalCall.pwm_set_chan_level sl ch lv ∈ w.runCalls ops → lv ≤ PWM_MAX := by
  induction ops with
  | nil => intro w sl ch lv h; simp [PairWorld.runCalls] at h
  | cons op rest ih =>
    intro w sl ch lv h
    simp only [PairWorld.runCalls, List.mem_append] at h
    rcases h with h | h
    · exact stepCalls_level w op sl ch lv h
    · exact ih (w.step op) sl ch lv h


/-! ## Slice configuration -/

theorem init_pwm_granted_inited (s : ButtonAndLed) (t : PwmTables)
    (h : t.pwm_used_ s.led_slice s.led_ch_idx = false) :
    ∀ a, (s.init_pwm t).2.1.slice_inited_ a =
      if a = s.led_slice then true else t.slice_inited_ a := by
  rw [init_pwm_granted s t h]
  exact fun _ => rfl

/-- A call either leaves the PWM tables alone or is a granted `init_pwm`, which marks the
channel and the slice of the pair's LED pin. -/
theorem step_tables (w : PairWorld) (op : PairOp) :
    (w.step op).tables = w.tables ∨
    ∃ (i : Nat) (s : ButtonAndLed), op = .init_pwm i ∧ w.pairs[i]? = some s ∧
      w.tables.pwm_used_ s.led_slice s.led_ch_idx = false ∧
      (∀ a b, (w.step op).tables.pwm_used_ a b =
        if a = s.led_slice ∧ b = s.led_ch_idx then true else w.tables.pwm_used_ a b) ∧
      (∀ a, (w.step op).tables.slice_inited_ a =
        if a = s.led_slice then true else w.tables.slice_inited_ a) := by
  cases op with
  | init_pwm i =>
    cases hs : w.pairs[i]? with
    | none => left; rw [step_init_pwm_none w i hs]
    | some s =>
      rw [step_init_pwm_some w i s hs]
      cases hu : w.tables.pwm_used_ s.led_slice s.led_ch_idx with
      | true => left; exact (init_pwm_conflict_fields s w.tables hu).2.2.2.2
      | false =>
        right
        exact ⟨i, s, rfl, hs, hu, (init_pwm_granted_fields s w.tables hu).2.2.2.2,
          init_pwm_granted_inited s w.tables hu⟩
  | update i now clock level =>
    left
    cases hs : w.pairs[i]? with
    | none => rw [step_update_none w i now clock level hs]
    | some s => rw [step_update_some w i now clock level s hs]

/-- In every table reached, a slice is marked configured exactly when one of its channels
is marked used. -/
theorem inited_iff_used_step (w : PairWorld) (op : PairOp)
    (h : ∀ sl, w.tables.slice_inited_ sl = true ↔ ∃ c, w.tables.pwm_used_ sl c = true) :
    ∀ sl, (w.step op).tables.slice_inited_ sl = true ↔
      ∃ c, (w.step op).tables.pwm_used_ sl c = true := by
  rcases step_tables w op with e | ⟨i, s, _, _, _, hu, hi⟩
  · rw [e]; exact h
  · intro sl
    rw [hi sl]
    by_cases hsl : sl = s.led_slice
    · rw [if_pos hsl]
      constructor
      · intro _
        refine ⟨s.led_ch_idx, ?_⟩
        rw [hu, if_pos ⟨hsl, rfl⟩]
      · intro _; rfl
    · rw [if_neg hsl, h sl]
      constructor
      · rintro ⟨c, hc⟩
        refine ⟨c, ?_⟩
        rw [hu, if_neg (fun e => hsl e.1)]
        exact hc
      · rintro ⟨c, hc⟩
        rw [hu, if_neg (fun e => hsl e.1)] at hc
        exact ⟨c, hc⟩

theorem inited_iff_used_run (ops : List PairOp) :
    ∀ w : PairWorld,
      (∀ sl, w.tables.slice_inited_ sl = true ↔ ∃ c, w.tables.pwm_used_ sl c = true) →
      ∀ sl, (w.run ops).tables.slice_inited_ sl = true ↔
        ∃ c, (w.run ops).tables.pwm_used_ sl c = true := by
  induction ops with
  | nil => intro w h; exact h
  | cons op rest ih => intro w h; exact ih (w.step op) (inited_iff_used_step w op h)

theorem update_trace_no_init (s : ButtonAndLed) (now clock : Nat) (level : Bool) (sl : Nat) :
    List.countP (HalCall.isPwmInitFor sl) (s.update now clock level).2 = 0 := by
  rw [List.countP_eq_zero]
  have hread : ∀ c ∈ (s.button_.read level).2, ¬ HalCall.isPwmInitFor sl c = true := by
    intro c hc
    cases hv : s.button_.valid_ <;> simp [GPIOPin.read, hv] at hc
    subst hc
    simp [HalCall.isPwmInitFor]
  have hsb : ∀ l, ∀ c ∈ (s.set_brightness l).2, ¬ HalCall.isPwmInitFor sl c = true := by
    intro l c hc
    rw [sb_trace, write_trace] at hc
    split at hc
    · simp only [List.mem_singleton] at hc
      subst hc
      simp [HalCall.isPwmInitFor]
    · split at hc
      · simp only [List.mem_singleton] at hc
        subst hc
        simp [HalCall.isPwmInitFor]
      · simp at hc
  refine update_cases s now level _ ?_ ?_ ?_ ?_ ?_
  · intro hr c hc
    rw [(update_pressed s now clock level hr).2.2.2] at hc
    rcases List.mem_append.1 hc with hc | hc
    · exact hread c hc
    · exact hsb _ c hc
  · intro hr hl c hc
    rw [(update_idle s now clock level hr hl).2] at hc
    exact hread c hc
  · intro hr hl hd c hc
    rw [(update_arm s now clock level hr hl hd).2.2.2] at hc
    exact hread c hc
  · intro hr hl hd ht c hc
    rw [(update_expire s now clock level hr hl hd ht).2.2.2] at hc
    rcases List.mem_append.1 hc with hc | hc
    · exact hread c hc
    · exact hsb _ c hc
  · intro hr hl hd ht c hc
    rw [(update_fade s now clock level hr hl hd ht).2.2.2] at hc
    rcases List.mem_append.1 hc with hc | hc
    · exact hread c hc
    · exact hsb _ c hc

/-- A call issues `pwm_init` for a slice exactly when it turns the slice's `slice_inited_`
flag from false to true. -/
theorem stepCalls_count (w : PairWorld) (op : PairOp) (sl : Nat) :
    List.countP (HalCall.isPwmInitFor sl) (w.stepCalls op) +
        (if w.tables.slice_inited_ sl = true then 1 else 0) =
      (if (w.step op).tables.slice_inited_ sl = true then 1 else 0) := by
  cases op with
  | init_pwm i =>
    cases hs : w.pairs[i]? with
    | none =>
      rw [stepCalls_init_pwm_none w i hs, step_init_pwm_none w i hs]
      simp
    | some s =>
      rw [stepCalls_init_pwm_some w i s hs, step_init_pwm_some w i s hs]
      cases hu : w.tables.pwm_used_ s.led_slice s.led_ch_idx with
      | true =>
        rw [(init_pwm_trace s w.tables).1 hu, (init_pwm_conflict_fields s w.tables hu).2.2.2.2]
        simp [HalCall.isPwmInitFor]
      | false =>
        rw [(init_pwm_trace s w.tables).2 hu]
        simp only [init_pwm_granted_inited s w.tables hu sl]
        by_cases hsl : sl = s.led_slice
        · subst hsl
          cases hi : w.tables.slice_inited_ s.led_slice <;>
            simp [HalCall.isPwmInitFor, List.countP_cons, hi]
        · have hsl2 : ¬ s.led_slice = sl := fun e => hsl e.symm
          cases hi : w.tables.slice_inited_ s.led_slice <;>
            simp [HalCall.isPwmInitFor, List.countP_cons, hi, hsl, hsl2]
  | update i now clock level =>
    cases hs : w.pairs[i]? with
    | none =>
      rw [stepCalls_update_none w i now clock level hs, step_update_none w i now clock level hs]
      simp
    | some s =>
      rw [stepCalls_update_some w i now clock level s hs,
        step_update_some w i now clock level s hs, update_trace_no_init]
      simp

theorem runCalls_count (ops : List PairOp) (sl : Nat) :
    ∀ w : PairWorld,
      List.countP (HalCall.isPwmInitFor sl) (w.runCalls ops) +
          (if w.tables.slice_inited_ sl = true then 1 else 0) =
        (if (w.run ops).tables.slice_inited_ sl = true then 1 else 0) := by
  induction ops with
  | nil => intro w; simp [PairWorld.runCalls, PairWorld.run]
  | cons op rest ih =>
    intro w
    have h1 := stepCalls_count w op sl
    have h2 := ih (w.step op)
    have e : (w.run (op :: rest)) = (w.step op).run rest := rfl
    rw [e]
    simp only [PairWorld.runCalls, List.countP_append]
    omega


/-! ## Invariants of all pairs -/

/-- A property of pairs that `init_pwm` establishes and `update` preserves holds for every
pair after any sequence of calls, if it held for every pair before. -/
theorem run_pairs_invariant (P : ButtonAndLed → Prop)
    (hinit : ∀ (s : ButtonAndLed) (t : PwmTables), P (s.init_pwm t).1)
    (hupd : ∀ (s : ButtonAndLed) (now clock : Nat) (level : Bool),
      P s → P (s.update now clock level).1)
    (ops : List PairOp) :
    ∀ w : PairWorld, (∀ a ∈ w.pairs, P a) → ∀ a ∈ (w.run ops).pairs, P a := by
  induction ops with
  | nil => intro w h; exact h
  | cons op rest ih =>
    intro w h
    apply ih (w.step op)
    cases op with
    | init_pwm i =>
      cases hs : w.pairs[i]? with
      | none => rw [step_init_pwm_none w i hs]; exact h
      | some s =>
        rw [step_init_pwm_some w i s hs]
        intro a ha
        rcases List.mem_or_eq_of_mem_set ha with ha | rfl
        · exact h a ha
        · exact hinit s w.tables
    | update i now clock level =>
      cases hs : w.pairs[i]? with
      | none => rw [step_update_none w i now clock level hs]; exact h
      | some s =>
        rw [step_update_some w i now clock level s hs]
        intro a ha
        rcases List.mem_or_eq_of_mem_set ha with ha | rfl
        · exact h a ha
        · exact hupd s now clock level (h s (List.getElem?_mem hs))

theorem constructPairs_idle (pins : List (Int × Int)) :
    ∀ (u : Nat) (a : ButtonAndLed), a ∈ constructPairs u pins →
      a.brightness_ = 0 ∧ a.led_on_ = false ∧ a.off_deadline_ = nil_time := by
  induction pins with
  | nil => intro u a ha; simp [constructPairs] at ha
  | cons x rest ih =>
    intro u a ha
    obtain ⟨b, l⟩ := x
    simp only [constructPairs, List.mem_cons] at ha
    rcases ha with rfl | ha
    · exact ⟨rfl, rfl, rfl⟩
    · exact ih _ a ha

/-- `update` keeps: a pair that is not engaged has brightness 0 and no deadline. -/
theorem update_engaged (s : ButtonAndLed) (now clock : Nat) (level : Bool)
    (h : s.led_on_ = false → s.brightness_ = 0 ∧ s.off_deadline_ = nil_time) :
    (s.update now clock level).1.led_on_ = false →
      (s.update now clock level).1.brightness_ = 0 ∧
      (s.update now clock level).1.off_deadline_ = nil_time := by
  refine update_cases s now level _ ?_ ?_ ?_ ?_ ?_
  · intro hr hoff
    rw [(update_pressed s now clock level hr).2.1] at hoff
    exact absurd hoff (by decide)
  · intro hr hl
    rw [(update_idle s now clock level hr hl).1]
    exact h
  · intro hr hl hd hoff
    rw [(update_arm s now clock level hr hl hd).2.1] at hoff
    exact absurd hoff (by decide)
  · intro hr hl hd ht _
    exact ⟨(update_expire s now clock level hr hl hd ht).1,
      (update_expire s now clock level hr hl hd ht).2.2.1⟩
  · intro hr hl hd ht hoff
    rw [(update_fade s now clock level hr hl hd ht).2.1] at hoff
    exact absurd hoff (by decide)

/-- Two pair states with the same fields are equal. -/
theorem pair_ext (a b : ButtonAndLed) (h1 : a.button_ = b.button_) (h2 : a.led_ = b.led_)
    (h3 : a.slice_ = b.slice_) (h4 : a.channel_ = b.channel_)
    (h5 : a.brightness_ = b.brightness_) (h6 : a.led_on_ = b.led_on_)
    (h7 : a.off_deadline_ = b.off_deadline_) (h8 : a.pwm_ok_ = b.pwm_ok_) : a = b := by
  cases a
  cases b
  simp only at h1 h2 h3 h4 h5 h6 h7 h8
  simp [h1, h2, h3, h4, h5, h6, h7, h8]

/-- After any number of `update` calls, the fields set by construction and `init_pwm` are
as before, and a pair that is not engaged has brightness 0 and no deadline. -/
theorem updates_frame (ticks : List (Nat × Nat × Bool)) :
    ∀ s : ButtonAndLed, (s.led_on_ = false → s.brightness_ = 0 ∧ s.off_deadline_ = nil_time) →
      (s.updates ticks).button_ = s.button_ ∧ (s.updates ticks).led_ = s.led_ ∧
      (s.updates ticks).slice_ = s.slice_ ∧ (s.updates ticks).channel_ = s.channel_ ∧
      (s.updates ticks).pwm_ok_ = s.pwm_ok_ ∧
      ((s.updates ticks).led_on_ = false →
        (s.updates ticks).brightness_ = 0 ∧ (s.updates ticks).off_deadline_ = nil_time) := by
  induction ticks with
  | nil => intro s h; exact ⟨rfl, rfl, rfl, rfl, rfl, h⟩
  | cons t rest ih =>
    intro s h
    obtain ⟨now, clock, level⟩ := t
    simp only [ButtonAndLed.updates]
    obtain ⟨g1, g2, g3, g4, g5⟩ := update_config s now clock level
    obtain ⟨f1, f2, f3, f4, f5, f6⟩ := ih (s.update now clock level).1
      (update_engaged s now clock level h)
    exact ⟨f1.trans g1, f2.trans g2, f3.trans g3, f4.trans g4, f5.trans g5, f6⟩


/-! ## A channel once granted -/

theorem run_append (w : PairWorld) (a b : List PairOp) : w.run (a ++ b) = (w.run a).run b := by
  simp [PairWorld.run, List.foldl_append]

theorem run_single (w : PairWorld) (op : PairOp) : w.run [op] = w.step op := rfl

/-- What a call can change in the pair at a position: its LED handle never, and its
`pwm_ok_` becomes true only by a grant of a channel that was free. -/
theorem step_pairs (w : PairWorld) (op : PairOp) (k : Nat) (b : ButtonAndLed)
    (hb : (w.step op).pairs[k]? = some b) :
    ∃ a, w.pairs[k]? = some a ∧ b.led_ = a.led_ ∧
      (b.pwm_ok_ = true →
        a.pwm_ok_ = true ∨ w.tables.pwm_used_ a.led_slice a.led_ch_idx = false) := by
  cases op with
  | init_pwm i =>
    cases hs : w.pairs[i]? with
    | none =>
      rw [step_init_pwm_none w i hs] at hb
      exact ⟨b, hb, rfl, fun h => Or.inl h⟩
    | some s =>
      rw [step_init_pwm_some w i s hs] at hb
      simp only at hb
      rw [getElem?_set_of_some w.pairs i k s _ hs] at hb
      by_cases hik : i = k
      · rw [if_pos hik] at hb
        cases hb
        refine ⟨s, hik ▸ hs, (init_pwm_fields s w.tables).2.1, ?_⟩
        intro hok
        cases hu : w.tables.pwm_used_ s.led_slice s.led_ch_idx with
        | true =>
          rw [(init_pwm_conflict_fields s w.tables hu).1] at hok
          exact absurd hok (by decide)
        | false => exact Or.inr rfl
      · rw [if_neg hik] at hb
        exact ⟨b, hb, rfl, fun h => Or.inl h⟩
  | update i now clock level =>
    cases hs : w.pairs[i]? with
    | none =>
      rw [step_update_none w i now clock level hs] at hb
      exact ⟨b, hb, rfl, fun h => Or.inl h⟩
    | some s =>
      rw [step_update_some w i now clock level s hs] at hb
      simp only at hb
      rw [getElem?_set_of_some w.pairs i k s _ hs] at hb
      by_cases hik : i = k
      · rw [if_pos hik] at hb
        cases hb
        obtain ⟨_, g2, _, _, g5⟩ := update_config s now clock level
        exact ⟨s, hik ▸ hs, g2, fun hok => Or.inl (g5 ▸ hok)⟩
      · rw [if_neg hik] at hb
        exact ⟨b, hb, rfl, fun h => Or.inl h⟩

/-- A pair stays at its position, with the same LED handle, through any call. -/
theorem step_pair_at (w : PairWorld) (op : PairOp) (k : Nat) (a : ButtonAndLed)
    (ha : w.pairs[k]? = some a) : ∃ b, (w.step op).pairs[k]? = some b ∧ b.led_ = a.led_ := by
  cases op with
  | init_pwm i =>
    cases hs : w.pairs[i]? with
    | none => rw [step_init_pwm_none w i hs]; exact ⟨a, ha, rfl⟩
    | some s =>
      rw [step_init_pwm_some w i s hs]
      simp only
      rw [getElem?_set_of_some w.pairs i k s _ hs]
      by_cases hik : i = k
      · rw [if_pos hik]
        subst hik
        have e : s = a := Option.some.inj (hs.symm.trans ha)
        exact ⟨_, rfl, by rw [← e]; exact (init_pwm_fields s w.tables).2.1⟩
      · rw [if_neg hik]; exact ⟨a, ha, rfl⟩
  | update i now clock level =>
    cases hs : w.pairs[i]? with
    | none => rw [step_update_none w i now clock level hs]; exact ⟨a, ha, rfl⟩
    | some s =>
      rw [step_update_some w i now clock level s hs]
      simp only
      rw [getElem?_set_of_some w.pairs i k s _ hs]
      by_cases hik : i = k
      · rw [if_pos hik]
        subst hik
        have e : s = a := Option.some.inj (hs.symm.trans ha)
        exact ⟨_, rfl, by rw [← e]; exact (update_config s now clock level).2.1⟩
      · rw [if_neg hik]; exact ⟨a, ha, rfl⟩

theorem run_pair_at (ops : List PairOp) :
    ∀ (w : PairWorld) (k : Nat) (a : ButtonAndLed), w.pairs[k]? = some a →
      ∃ b, (w.run ops).pairs[k]? = some b ∧ b.led_ = a.led_ := by
  induction ops with
  | nil => intro w k a ha; exact ⟨a, ha, rfl⟩
  | cons op rest ih =>
    intro w k a ha
    obtain ⟨b, hb, e⟩ := step_pair_at w op k a ha
    obtain ⟨c, hc, e2⟩ := ih (w.step op) k b hb
    exact ⟨c, hc, e2.trans e⟩

/-- An entry of `pwm_used_` that is set stays set. -/
theorem step_used_mono (w : PairWorld) (op : PairOp) (x y : Nat)
    (h : w.tables.pwm_used_ x y = true) : (w.step op).tables.pwm_used_ x y = true := by
  rcases step_tables w op with e | ⟨_, _, _, _, _, hu, _⟩
  · rw [e]; exact h
  · rw [hu]
    split
    · rfl
    · exact h

theorem only_holder_step (w : PairWorld) (op : PairOp) (sl cx : Nat) (holder : Option Nat)
    (h : w.OnlyHolder sl cx holder) : (w.step op).OnlyHolder sl cx holder := by
  obtain ⟨hu, hp⟩ := h
  refine ⟨step_used_mono w op sl cx hu, ?_⟩
  intro k b hb hsl hcx hok
  obtain ⟨a, ha, hled, hcase⟩ := step_pairs w op k b hb
  obtain ⟨e1, _, e3⟩ := led_ids_congr b a hled
  rcases hcase hok with hoa | hfree
  · exact hp k a ha (e1 ▸ hsl) (e3 ▸ hcx) hoa
  · rw [← e1, ← e3, hsl, hcx, hu] at hfree
    exact absurd hfree (by decide)

theorem only_holder_run (ops : List PairOp) (sl cx : Nat) (holder : Option Nat) :
    ∀ w : PairWorld, w.OnlyHolder sl cx holder → (w.run ops).OnlyHolder sl cx holder := by
  induction ops with
  | nil => intro w h; exact h
  | cons op rest ih => intro w h; exact ih (w.step op) (only_holder_step w op sl cx holder h)

/-- A granted `init_pwm` makes the pair the only holder of its channel. -/
theorem grant_only_holder (w : PairWorld) (i : Nat) (s : ButtonAndLed) (hc : w.Exclusive)
    (hs : w.pairs[i]? = some s) (hfree : w.tables.pwm_used_ s.led_slice s.led_ch_idx = false) :
    (∃ a, (w.step (.init_pwm i)).pairs[i]? = some a ∧ a.pwm_ok_ = true ∧
      a.slice_ = s.led_slice ∧ a.channel_ = s.led_channel ∧ a.led_ = s.led_) ∧
    (w.step (.init_pwm i)).OnlyHolder s.led_slice s.led_ch_idx (some i) := by
  obtain ⟨f1, f2, f3, f4, f5⟩ := init_pwm_granted_fields s w.tables hfree
  have hstep := step_init_pwm_some w i s hs
  constructor
  · refine ⟨(s.init_pwm w.tables).1, ?_, f1, f2, f3, f4⟩
    rw [hstep]
    simp only
    rw [getElem?_set_of_some w.pairs i i s _ hs, if_pos rfl]
  · constructor
    · rw [hstep]
      simp only
      rw [f5, if_pos ⟨rfl, rfl⟩]
    · intro k b hb hsl hcx hok
      by_cases hik : i = k
      · rw [hik]
      · exfalso
        rw [hstep] at hb
        simp only at hb
        rw [getElem?_set_of_some w.pairs i k s _ hs, if_neg hik] at hb
        have := (hc.1 k b hb hok).2.2
        rw [hsl, hcx, hfree] at this
        exact absurd this (by decide)

/-- A further `init_pwm` by the only holder of a channel leaves the channel without holder. -/
theorem holder_init_again (w : PairWorld) (i : Nat) (a : ButtonAndLed)
    (h : w.OnlyHolder a.led_slice a.led_ch_idx (some i)) (ha : w.pairs[i]? = some a) :
    (∃ b, (w.step (.init_pwm i)).pairs[i]? = some b ∧ b.pwm_ok_ = false ∧
      b.slice_ = a.led_slice ∧ b.channel_ = a.led_channel) ∧
    (w.step (.init_pwm i)).OnlyHolder a.led_slice a.led_ch_idx none := by
  obtain ⟨hu, hp⟩ := h
  obtain ⟨f1, f2, f3, _, f5⟩ := init_pwm_conflict_fields a w.tables hu
  have hstep := step_init_pwm_some w i a ha
  constructor
  · refine ⟨(a.init_pwm w.tables).1, ?_, f1, f2, f3⟩
    rw [hstep]
    simp only
    rw [getElem?_set_of_some w.pairs i i a _ ha, if_pos rfl]
  · constructor
    · rw [hstep]
      simp only
      rw [f5]
      exact hu
    · intro k b hb hsl hcx hok
      exfalso
      rw [hstep] at hb
      simp only at hb
      rw [getElem?_set_of_some w.pairs i k a _ ha] at hb
      by_cases hik : i = k
      · rw [if_pos hik] at hb
        cases hb
        rw [f1] at hok
        exact absurd hok (by decide)
      · rw [if_neg hik] at hb
        have := hp k b hb hsl hcx hok
        exact hik (Option.some.inj this)


/-! ## Claims -/

/-- C1. Clamping invariant: after the pairs are constructed, whatever sequence of `init_pwm`
and `update` calls is made on them (any `now`, any clock and button readings, granted or
degraded), every pair's stored `brightness_` lies in `0 .. PWM_MAX = 1000` after the calls;
as the sequence is arbitrary, this holds after every call of it. -/
theorem C1_brightness_clamped (pins : List (Int × Int)) (ops : List PairOp) :
    PWM_MAX = 1000 ∧
    ∀ a ∈ ((PairWorld.boot pins).run ops).pairs, 0 ≤ a.brightness_ ∧ a.brightness_ ≤ PWM_MAX := by
  refine ⟨rfl, fun a ha => ⟨Nat.zero_le _, ?_⟩⟩
  refine run_brightness_le ops (PairWorld.boot pins) ?_ a ha
  intro b hb
  rw [constructPairs_brightness pins 0 b hb]
  exact Nat.zero_le _

/-- C2. Pin mutual exclusion: starting from `pins_in_use = 0` with no handle alive, after any
sequence of `GPIOPin` constructions and destructions, every pin index `p` has at most one live
handle with `valid_ = true` and `pin_ = p`, and bit `q` of `pins_in_use` is set if and only if
a live valid handle with `pin_ = q` exists. -/
theorem C2_pin_mutual_exclusion (ops : List PinOp) (p : Int) (q : Nat) :
    (PinWorld.start.run ops).claimants p ≤ 1 ∧
    ((PinWorld.start.run ops).pins_in_use.testBit q = true ↔
      ∃ h ∈ (PinWorld.start.run ops).live, h.valid_ = true ∧ h.pin_ = (q : Int)) := by
  have hc := consistent_run ops PinWorld.start consistent_start
  exact ⟨hc.1 p, hc.2.1 q⟩

/-- C3. PWM channel mutual exclusion: starting from freshly constructed pairs and empty PWM
tables, after any sequence of `init_pwm` calls (and `update` calls) on any of the pairs, two
different pairs with `pwm_ok_ = true` never hold the same `(slice_, channel_)`; and an
`init_pwm` that finds its `(slice, channel)` already claimed ends with `pwm_ok_ = false` and
with `slice_` / `channel_` recording that claimed identity. -/
theorem C3_pwm_channel_mutual_exclusion (pins : List (Int × Int)) (ops : List PairOp) :
    (∀ (i j : Nat) (a b : ButtonAndLed), i ≠ j →
      ((PairWorld.boot pins).run ops).pairs[i]? = some a →
      ((PairWorld.boot pins).run ops).pairs[j]? = some b →
      a.pwm_ok_ = true → b.pwm_ok_ = true →
      ¬ (a.slice_ = b.slice_ ∧ a.channel_ = b.channel_)) ∧
    (∀ (s : ButtonAndLed) (t : PwmTables),
      t.pwm_used_ (pwm_gpio_to_slice_num (toUInt32 s.led_.number))
        (if pwm_gpio_to_channel (toUInt32 s.led_.number) = PWM_CHAN_A then 0 else 1) = true →
      (s.init_pwm t).1.pwm_ok_ = false ∧
      (s.init_pwm t).1.slice_ = pwm_gpio_to_slice_num (toUInt32 s.led_.number) ∧
      (s.init_pwm t).1.channel_ = pwm_gpio_to_channel (toUInt32 s.led_.number)) := by
  refine ⟨(exclusive_run ops _ (exclusive_boot pins)).2, ?_⟩
  intro s t h
  obtain ⟨f1, f2, f3, _, _⟩ := init_pwm_conflict_fields s t h
  exact ⟨f1, f2, f3⟩

/-- Instance of C3: pairs on LED pins 22 and 21 are both granted, on different channels; a
second pair on LED pin 22 finds slice 3 channel A claimed and ends degraded. -/
theorem C3_pwm_channel_mutual_exclusion_witness :
    (∃ a b : ButtonAndLed,
      ((PairWorld.boot [(7, 22), (8, 21)]).run [.init_pwm 0, .init_pwm 1]).pairs[0]? = some a ∧
      ((PairWorld.boot [(7, 22), (8, 21)]).run [.init_pwm 0, .init_pwm 1]).pairs[1]? = some b ∧
      a.pwm_ok_ = true ∧ b.pwm_ok_ = true ∧
      ¬ (a.slice_ = b.slice_ ∧ a.channel_ = b.channel_)) ∧
    (((ButtonAndLed.ctor 0 7 22).1.init_pwm PwmTables.empty).2.1.pwm_used_ 3 0 = true ∧
     ((ButtonAndLed.ctor (2 ^ 7 ||| 2 ^ 22) 8 22).1.init_pwm
        ((ButtonAndLed.ctor 0 7 22).1.init_pwm PwmTables.empty).2.1).1.pwm_ok_ = false ∧
     ((ButtonAndLed.ctor (2 ^ 7 ||| 2 ^ 22) 8 22).1.init_pwm
        ((ButtonAndLed.ctor 0 7 22).1.init_pwm PwmTables.empty).2.1).1.slice_ = 3 ∧
     ((ButtonAndLed.ctor (2 ^ 7 ||| 2 ^ 22) 8 22).1.init_pwm
        ((ButtonAndLed.ctor 0 7 22).1.init_pwm PwmTables.empty).2.1).1.channel_ = 0) :=
  ⟨⟨{ button_ := { pin_ := 7, is_input_ := true, valid_ := true },
      led_ := { pin_ := 22, is_input_ := false, valid_ := true },
      slice_ := 3, channel_ := 0, brightness_ := 0, led_on_ := false, off_deadline_ := 0,
      pwm_ok_ := true },
    { button_ := { pin_ := 8, is_input_ := true, valid_ := true },
      led_ := { pin_ := 21, is_input_ := false, valid_ := true },
      slice_ := 2, channel_ := 1, brightness_ := 0, led_on_ := false, off_deadline_ := 0,
      pwm_ok_ := true },
    by decide, by decide, rfl, rfl,
    (C3_pwm_channel_mutual_exclusion [(7, 22), (8, 21)] [.init_pwm 0, .init_pwm 1]).1 0 1 _ _
      (by decide) (by decide) (by decide) rfl rfl⟩,
   by decide,
   (C3_pwm_channel_mutual_exclusion [] []).2 (ButtonAndLed.ctor (2 ^ 7 ||| 2 ^ 22) 8 22).1
     ((ButtonAndLed.ctor 0 7 22).1.init_pwm PwmTables.empty).2.1 (by decide)⟩

/-- C4. Press priority and idempotence: from any pair state and for any `now`, an `update` on a
tick where the button reads pressed leaves `brightness_ = PWM_MAX`, `led_on_ = true` and
`off_deadline_ = nil_time`; and further `update` calls with the button still read as pressed,
however many, leave exactly the state reached by the first one. -/
theorem C4_press_priority_idempotent (s : ButtonAndLed) (now clock : Nat)
    (level : Bool) (ticks : List (Nat × Nat × Bool))
    (hpressed : (s.button_.read level).1 = false)
    (hheld : ∀ t ∈ ticks, (s.button_.read t.2.2).1 = false) :
    (s.update now clock level).1.brightness_ = PWM_MAX ∧
    (s.update now clock level).1.led_on_ = true ∧
    (s.update now clock level).1.off_deadline_ = nil_time ∧
    s.updates ((now, clock, level) :: ticks) = (s.update now clock level).1 := by
  obtain ⟨f1, f2, f3, _⟩ := update_pressed s now clock level hpressed
  refine ⟨f1, f2, f3, ?_⟩
  simp only [ButtonAndLed.updates]
  apply updates_pressed ticks _ _ f1 f2 f3
  intro t ht
  rw [(update_config s now clock level).1]
  exact hheld t ht

/-- Instance of C4: a fading pair whose button reads pressed on three successive ticks. -/
theorem C4_press_priority_idempotent_witness :
    (({ button_ := { pin_ := 7, is_input_ := true, valid_ := true },
        led_ := { pin_ := 22, is_input_ := false, valid_ := true },
        slice_ := 3, channel_ := 0, brightness_ := 400, led_on_ := true,
        off_deadline_ := 5000000, pwm_ok_ := true } : ButtonAndLed).update
          4400000 4400003 false).1.brightness_ = PWM_MAX ∧
    (({ button_ := { pin_ := 7, is_input_ := true, valid_ := true },
        led_ := { pin_ := 22, is_input_ := false, valid_ := true },
        slice_ := 3, channel_ := 0, brightness_ := 400, led_on_ := true,
        off_deadline_ := 5000000, pwm_ok_ := true } : ButtonAndLed).update
          4400000 4400003 false).1.led_on_ = true ∧
    (({ button_ := { pin_ := 7, is_input_ := true, valid_ := true },
        led_ := { pin_ := 22, is_input_ := false, valid_ := true },
        slice_ := 3, channel_ := 0, brightness_ := 400, led_on_ := true,
        off_deadline_ := 5000000, pwm_ok_ := true } : ButtonAndLed).update
          4400000 4400003 false).1.off_deadline_ = nil_time ∧
    ({ button_ := { pin_ := 7, is_input_ := true, valid_ := true },
       led_ := { pin_ := 22, is_input_ := false, valid_ := true },
       slice_ := 3, channel_ := 0, brightness_ := 400, led_on_ := true,
       off_deadline_ := 5000000, pwm_ok_ := true } : ButtonAndLed).updates
         [(4400000, 4400003, false), (4410000, 4410002, false), (4420000, 4420001, false)] =
      (({ button_ := { pin_ := 7, is_input_ := true, valid_ := true },
          led_ := { pin_ := 22, is_input_ := false, valid_ := true },
          slice_ := 3, channel_ := 0, brightness_ := 400, led_on_ := true,
          off_deadline_ := 5000000, pwm_ok_ := true } : ButtonAndLed).update
            4400000 4400003 false).1 :=
  C4_press_priority_idempotent _ 4400000 4400003 false
    [(4410000, 4410002, false), (4420000, 4420001, false)] (by decide) (by decide)

/-- C5. Deadline boundary: with the button released, `led_on_ = true` and a deadline set, an
`update` whose `now` equals the deadline, or lies after it, sets `brightness_ = 0`,
`led_on_ = false` and `off_deadline_ = nil_time` on that same call.  Timestamps are in the
range of `absolute_time_t`, at most `INT64_MAX` microseconds. -/
theorem C5_deadline_boundary (s : ButtonAndLed) (now clock : Nat) (level : Bool)
    (hrel : (s.button_.read level).1 = true) (hon : s.led_on_ = true)
    (hset : s.off_deadline_ ≠ nil_time)
    (hnow : now ≤ INT64_MAX) (hd : s.off_deadline_ ≤ now) :
    (s.update now clock level).1.brightness_ = 0 ∧
    (s.update now clock level).1.led_on_ = false ∧
    (s.update now clock level).1.off_deadline_ = nil_time := by
  have hI : INT64_MAX = 2 ^ 63 - 1 := rfl
  have ht : absolute_time_diff_us now s.off_deadline_ ≤ 0 := by
    rw [diff_us_eq now s.off_deadline_ (by omega) (by omega)]
    omega
  obtain ⟨f1, f2, f3, _⟩ := update_expire s now clock level hrel hon (is_nil_time_false _ hset) ht
  exact ⟨f1, f2, f3⟩

/-- Instance of C5: an `update` exactly at the deadline 5 000 000. -/
theorem C5_deadline_boundary_witness :
    (({ button_ := { pin_ := 7, is_input_ := true, valid_ := true },
        led_ := { pin_ := 22, is_input_ := false, valid_ := true },
        slice_ := 3, channel_ := 0, brightness_ := 10, led_on_ := true,
        off_deadline_ := 5000000, pwm_ok_ := true } : ButtonAndLed).update
          5000000 5000004 true).1.brightness_ = 0 ∧
    (({ button_ := { pin_ := 7, is_input_ := true, valid_ := true },
        led_ := { pin_ := 22, is_input_ := false, valid_ := true },
        slice_ := 3, channel_ := 0, brightness_ := 10, led_on_ := true,
        off_deadline_ := 5000000, pwm_ok_ := true } : ButtonAndLed).update
          5000000 5000004 true).1.led_on_ = false ∧
    (({ button_ := { pin_ := 7, is_input_ := true, valid_ := true },
        led_ := { pin_ := 22, is_input_ := false, valid_ := true },
        slice_ := 3, channel_ := 0, brightness_ := 10, led_on_ := true,
        off_deadline_ := 5000000, pwm_ok_ := true } : ButtonAndLed).update
          5000000 5000004 true).1.off_deadline_ = nil_time :=
  C5_deadline_boundary _ 5000000 5000004 true (by decide) (by decide) (by decide) (by decide)
    (by decide)

/-- C7. Fade strictness: with the button released, `led_on_ = true` and a deadline set, for
timestamps `t1 < t2 < deadline` with `t1` no earlier than `deadline - 1000 ms` and `t2 - t1`
at least one poll interval (10 ms), the brightness stored by `update(t2)` is strictly less
than the brightness stored by `update(t1)`, both when the two calls are applied to the same
state and when `update(t2)` follows `update(t1)`.  The deadline is in the range of
`absolute_time_t`, at most `INT64_MAX`. -/
theorem C7_fade_strict (s : ButtonAndLed) (t1 t2 c1 c2 : Nat) (l1 l2 : Bool)
    (hr1 : (s.button_.read l1).1 = true) (hr2 : (s.button_.read l2).1 = true)
    (hon : s.led_on_ = true) (hset : s.off_deadline_ ≠ nil_time)
    (hd : s.off_deadline_ ≤ INT64_MAX)
    (hpoll : t1 + POLL_MS * 1000 ≤ t2) (h2 : t2 < s.off_deadline_)
    (hwin : s.off_deadline_ ≤ t1 + RELEASE * 1000) :
    (s.update t2 c2 l2).1.brightness_ < (s.update t1 c1 l1).1.brightness_ ∧
    ((s.update t1 c1 l1).1.update t2 c2 l2).1.brightness_ <
      (s.update t1 c1 l1).1.brightness_ := by
  simp only [POLL_MS, RELEASE] at hpoll hwin
  have e1 := (update_fading s t1 c1 l1 hr1 hon hset hd (by omega) (by omega)).1
  have e2 := (update_fading s t2 c2 l2 hr2 hon hset hd h2 (by omega)).1
  have e3 := update_fading_then s t1 t2 c1 c2 l1 l2 hr1 hr2 hon hset hd (by omega) h2
    (by omega) (by omega)
  rw [e1, e2, e3]
  have : min ((s.off_deadline_ - t2) / 1000) PWM_MAX < min ((s.off_deadline_ - t1) / 1000) PWM_MAX := by
    simp only [PWM_MAX]
    omega
  exact ⟨this, this⟩

/-- Instance of C7: two ticks 10 ms apart, 1000 ms and 990 ms before the deadline. -/
theorem C7_fade_strict_witness :
    (({ button_ := { pin_ := 7, is_input_ := true, valid_ := true },
        led_ := { pin_ := 22, is_input_ := false, valid_ := true },
        slice_ := 3, channel_ := 0, brightness_ := 1000, led_on_ := true,
        off_deadline_ := 70000000, pwm_ok_ := true } : ButtonAndLed).update
          69010000 69010002 true).1.brightness_ <
      (({ button_ := { pin_ := 7, is_input_ := true, valid_ := true },
          led_ := { pin_ := 22, is_input_ := false, valid_ := true },
          slice_ := 3, channel_ := 0, brightness_ := 1000, led_on_ := true,
          off_deadline_ := 70000000, pwm_ok_ := true } : ButtonAndLed).update
            69000000 69000001 true).1.brightness_ ∧
    ((({ button_ := { pin_ := 7, is_input_ := true, valid_ := true },
         led_ := { pin_ := 22, is_input_ := false, valid_ := true },
         slice_ := 3, channel_ := 0, brightness_ := 1000, led_on_ := true,
         off_deadline_ := 70000000, pwm_ok_ := true } : ButtonAndLed).update
           69000000 69000001 true).1.update 69010000 69010002 true).1.brightness_ <
      (({ button_ := { pin_ := 7, is_input_ := true, valid_ := true },
          led_ := { pin_ := 22, is_input_ := false, valid_ := true },
          slice_ := 3, channel_ := 0, brightness_ := 1000, led_on_ := true,
          off_deadline_ := 70000000, pwm_ok_ := true } : ButtonAndLed).update
            69000000 69000001 true).1.brightness_ :=
  C7_fade_strict _ 69000000 69010000 69000001 69010002 true true (by decide) (by decide)
    (by decide) (by decide) (by decide) (by decide) (by decide) (by decide)

/-- C8. Linear fade formula: with the button released, `led_on_ = true` and a deadline set,
for a `now` whose remaining time `rem_us = deadline - now` satisfies
`0 < rem_us <= 1 000 000` us, `update` stores `brightness_ = PWM_MAX * rem_us / 1 000 000`
(integer division, rounding down) and leaves `led_on_` and `off_deadline_` unchanged; with
`rem_us = 500 000` the stored brightness is `500 = PWM_MAX / 2`.  The deadline is in the
range of `absolute_time_t`, at most `INT64_MAX`. -/
theorem C8_linear_fade (s : ButtonAndLed) (now clock : Nat) (level : Bool)
    (hrel : (s.button_.read level).1 = true) (hon : s.led_on_ = true)
    (hset : s.off_deadline_ ≠ nil_time) (hd : s.off_deadline_ ≤ INT64_MAX)
    (hpos : 0 < s.off_deadline_ - now) (hwin : s.off_deadline_ - now ≤ 1000000) :
    (s.update now clock level).1.brightness_ = PWM_MAX * (s.off_deadline_ - now) / 1000000 ∧
    (s.update now clock level).1.led_on_ = s.led_on_ ∧
    (s.update now clock level).1.off_deadline_ = s.off_deadline_ ∧
    (s.off_deadline_ - now = 500000 →
      (s.update now clock level).1.brightness_ = 500 ∧ 500 = PWM_MAX / 2) := by
  obtain ⟨f1, f2, f3⟩ := update_fading s now clock level hrel hon hset hd (by omega) (by omega)
  have hb : (s.update now clock level).1.brightness_ =
      PWM_MAX * (s.off_deadline_ - now) / 1000000 := by
    rw [f1]
    simp only [PWM_MAX]
    omega
  refine ⟨hb, by rw [f2, hon], f3, ?_⟩
  intro h5
  rw [hb, h5]
  exact ⟨by decide, by decide⟩

/-- Instance of C8: 500 000 us before the deadline the stored brightness is 500. -/
theorem C8_linear_fade_witness :
    (({ button_ := { pin_ := 7, is_input_ := true, valid_ := true },
        led_ := { pin_ := 22, is_input_ := false, valid_ := true },
        slice_ := 3, channel_ := 0, brightness_ := 1000, led_on_ := true,
        off_deadline_ := 70000000, pwm_ok_ := true } : ButtonAndLed).update
          69500000 69500002 true).1.brightness_ = 500 ∧ 500 = PWM_MAX / 2 :=
  (C8_linear_fade
    { button_ := { pin_ := 7, is_input_ := true, valid_ := true },
      led_ := { pin_ := 22, is_input_ := false, valid_ := true },
      slice_ := 3, channel_ := 0, brightness_ := 1000, led_on_ := true,
      off_deadline_ := 70000000, pwm_ok_ := true }
    69500000 69500002 true (by decide) (by decide) (by decide) (by decide) (by decide)
    (by decide)).2.2.2 (by decide)

/-- C9 as stated fails: the deadline is computed by `make_timeout_time_ms(RELEASE)` from the
clock read inside the call, not from the argument `now`.  With `now = 5 000 000` and the
clock at `5 000 007` the deadline becomes `6 000 007`, not `now + 1 000 000`. -/
theorem C9_arm_deadline_counterexample :
    ¬ (∀ (s : ButtonAndLed) (now clock : Nat) (level : Bool),
        (s.button_.read level).1 = true → s.led_on_ = true → s.off_deadline_ = nil_time →
        now ≤ clock → clock + RELEASE * 1000 ≤ INT64_MAX →
        (s.update now clock level).1.off_deadline_ = now + RELEASE * 1000) := by
  intro h
  exact absurd
    (h { button_ := { pin_ := 7, is_input_ := true, valid_ := true },
         led_ := { pin_ := 22, is_input_ := false, valid_ := true },
         slice_ := 3, channel_ := 0, brightness_ := 1000, led_on_ := true,
         off_deadline_ := 0, pwm_ok_ := true }
      5000000 5000007 true (by decide) (by decide) (by decide) (by decide) (by decide))
    (by decide)

/-- C9 (amended). Held -> FadeArmed: with `led_on_ = true` and `off_deadline_ = nil_time`, an
`update(now)` on a tick where the button reads released sets `off_deadline_` to the time the
clock shows inside the call (read by `make_timeout_time_ms`) plus 1000 ms, leaves
`brightness_` and `led_on_` unchanged, and writes neither a PWM channel level nor the pin on
that call.  The new deadline is `now + 1000 ms` exactly when the clock still shows `now`.
The clock is more than 1000 ms before `INT64_MAX`, where `make_timeout_time_ms` saturates. -/
theorem C9_arm_deadline (s : ButtonAndLed) (now clock : Nat) (level : Bool)
    (hrel : (s.button_.read level).1 = true) (hon : s.led_on_ = true)
    (hnil : s.off_deadline_ = nil_time) (hclock : clock + RELEASE * 1000 ≤ INT64_MAX) :
    (s.update now clock level).1.off_deadline_ = clock + RELEASE * 1000 ∧
    ((s.update now clock level).1.off_deadline_ = now + RELEASE * 1000 ↔ clock = now) ∧
    (s.update now clock level).1.brightness_ = s.brightness_ ∧
    (s.update now clock level).1.led_on_ = s.led_on_ ∧
    (∀ c ∈ (s.update now clock level).2, c.isPwmLevelWrite = false ∧ c.isPinWrite = false) := by
  have hd : is_nil_time s.off_deadline_ = true := by rw [hnil]; rfl
  obtain ⟨f1, f2, f3, f4⟩ := update_arm s now clock level hrel hon hd
  have e : (s.update now clock level).1.off_deadline_ = clock + RELEASE * 1000 := by
    rw [f3, make_timeout_eq clock RELEASE hclock]
  refine ⟨e, ?_, f1, by rw [f2, hon], ?_⟩
  · rw [e]; omega
  · rw [f4]; exact read_trace_no_write s.button_ level

/-- Instance of C9 (amended): with the clock at 5 000 007 the deadline is 6 000 007. -/
theorem C9_arm_deadline_witness :
    (({ button_ := { pin_ := 7, is_input_ := true, valid_ := true },
        led_ := { pin_ := 22, is_input_ := false, valid_ := true },
        slice_ := 3, channel_ := 0, brightness_ := 1000, led_on_ := true,
        off_deadline_ := 0, pwm_ok_ := true } : ButtonAndLed).update
          5000000 5000007 true).1.off_deadline_ = 5000007 + RELEASE * 1000 :=
  (C9_arm_deadline
    { button_ := { pin_ := 7, is_input_ := true, valid_ := true },
      led_ := { pin_ := 22, is_input_ := false, valid_ := true },
      slice_ := 3, channel_ := 0, brightness_ := 1000, led_on_ := true,
      off_deadline_ := 0, pwm_ok_ := true }
    5000000 5000007 true (by decide) (by decide) (by decide) (by decide)).1

/-- C10 as stated fails for a degraded pair whose LED handle is invalid: `led_.write` is then
a no-op, so `set_brightness(1000)` does not drive the pin high although
`min(1000, PWM_MAX) > PWM_MAX / 2`.  Here the LED pin 22 was already claimed, so the handle
has `valid_ = false`. -/
theorem C10_output_mapping_counterexample :
    ¬ (∀ (s : ButtonAndLed) (level : Nat), s.pwm_ok_ = false →
        (HalCall.gpio_put s.led_.pin_ true ∈ (s.set_brightness level).2 ↔
          min level PWM_MAX > PWM_MAX / 2)) := by
  intro h
  exact absurd
    ((h { button_ := { pin_ := 8, is_input_ := true, valid_ := true },
          led_ := { pin_ := 22, is_input_ := false, valid_ := false },
          slice_ := 3, channel_ := 0, brightness_ := 0, led_on_ := false,
          off_deadline_ := 0, pwm_ok_ := false }
       1000 (by decide)).2 (by decide))
    (by decide)

/-- C10 (amended). Output mapping: for every level passed to `set_brightness`, a pair with
`pwm_ok_ = true` issues exactly the one call `pwm_set_chan_level(slice_, channel_, b)` with
`b = min(level, PWM_MAX)` and does not write the pin; a pair with `pwm_ok_ = false` issues no
PWM level write and, when its LED handle is valid, issues exactly the one call
`gpio_put(pin, b > PWM_MAX / 2)` with `PWM_MAX / 2 = 500`, so a brightness of exactly 500
drives the pin low; when its LED handle is invalid it issues no call at all.  Hence an
`update` of a degraded pair writes no PWM channel level. -/
theorem C10_output_mapping (s : ButtonAndLed) (level now clock : Nat) (lvl : Bool) :
    (s.pwm_ok_ = true → (s.set_brightness level).2 =
      [HalCall.pwm_set_chan_level s.slice_ s.channel_ (min level PWM_MAX)]) ∧
    (s.pwm_ok_ = false → s.led_.valid_ = true → (s.set_brightness level).2 =
      [HalCall.gpio_put s.led_.pin_ (decide (min level PWM_MAX > PWM_MAX / 2))]) ∧
    (s.pwm_ok_ = false → s.led_.valid_ = false → (s.set_brightness level).2 = []) ∧
    PWM_MAX / 2 = 500 ∧
    (s.pwm_ok_ = false → s.led_.valid_ = true →
      (s.set_brightness 500).2 = [HalCall.gpio_put s.led_.pin_ false]) ∧
    (s.pwm_ok_ = false → ∀ c ∈ (s.update now clock lvl).2, c.isPwmLevelWrite = false) := by
  have hmin : ∀ l : Nat, (if l > PWM_MAX then PWM_MAX else l) = min l PWM_MAX := by
    intro l
    split <;> omega
  refine ⟨?_, ?_, ?_, by decide, ?_, ?_⟩
  · intro hp
    rw [sb_trace, if_pos hp, hmin]
  · intro hp hv
    rw [sb_trace, hp, write_trace, hv, hmin]
    simp
  · intro hp hv
    rw [sb_trace, hp, write_trace, hv]
    simp
  · intro hp hv
    rw [sb_trace, hp, write_trace, hv]
    simp [PWM_MAX]
  · intro hp
    exact update_trace_degraded s now clock lvl hp

/-- Instance of C10 (amended): a granted pair, a degraded pair with a valid LED handle and a
degraded pair with an invalid LED handle. -/
theorem C10_output_mapping_witness :
    (({ button_ := { pin_ := 7, is_input_ := true, valid_ := true },
        led_ := { pin_ := 22, is_input_ := false, valid_ := true },
        slice_ := 3, channel_ := 0, brightness_ := 0, led_on_ := false,
        off_deadline_ := 0, pwm_ok_ := true } : ButtonAndLed).set_brightness 1200).2 =
      [HalCall.pwm_set_chan_level 3 0 (min 1200 PWM_MAX)] ∧
    (({ button_ := { pin_ := 8, is_input_ := true, valid_ := true },
        led_ := { pin_ := 23, is_input_ := false, valid_ := true },
        slice_ := 3, channel_ := 1, brightness_ := 0, led_on_ := false,
        off_deadline_ := 0, pwm_ok_ := false } : ButtonAndLed).set_brightness 501).2 =
      [HalCall.gpio_put 23 (decide (min 501 PWM_MAX > PWM_MAX / 2))] ∧
    (({ button_ := { pin_ := 8, is_input_ := true, valid_ := true },
        led_ := { pin_ := 22, is_input_ := false, valid_ := false },
        slice_ := 3, channel_ := 0, brightness_ := 0, led_on_ := false,
        off_deadline_ := 0, pwm_ok_ := false } : ButtonAndLed).set_brightness 1000).2 = [] :=
  ⟨(C10_output_mapping
      { button_ := { pin_ := 7, is_input_ := true, valid_ := true },
        led_ := { pin_ := 22, is_input_ := false, valid_ := true },
        slice_ := 3, channel_ := 0, brightness_ := 0, led_on_ := false,
        off_deadline_ := 0, pwm_ok_ := true } 1200 0 0 true).1 (by decide),
   (C10_output_mapping
      { button_ := { pin_ := 8, is_input_ := true, valid_ := true },
        led_ := { pin_ := 23, is_input_ := false, valid_ := true },
        slice_ := 3, channel_ := 1, brightness_ := 0, led_on_ := false,
        off_deadline_ := 0, pwm_ok_ := false } 501 0 0 true).2.1 (by decide) (by decide),
   (C10_output_mapping
      { button_ := { pin_ := 8, is_input_ := true, valid_ := true },
        led_ := { pin_ := 22, is_input_ := false, valid_ := false },
        slice_ := 3, channel_ := 0, brightness_ := 0, led_on_ := false,
        off_deadline_ := 0, pwm_ok_ := false } 1000 0 0 true).2.2.1 (by decide) (by decide)⟩

/-- C11. Acquire validity: for every pin number and every registry state, the constructed
`GPIOPin` has `valid_ = true` if and only if `0 <= pin <= 29` and bit `pin` of `pins_in_use`
was clear beforehand; on success bit `pin` is set and every other bit keeps its value; on
failure `pins_in_use` is unchanged and no HAL call at all is made. -/
theorem C11_acquire_validity (u : Nat) (pin : Int) (input pullup invert : Bool) :
    ((GPIOPin.ctor u pin input pullup invert).1.valid_ = true ↔
      (0 ≤ pin ∧ pin ≤ 29 ∧ u.testBit pin.toNat = false)) ∧
    ((GPIOPin.ctor u pin input pullup invert).1.valid_ = true →
      ∀ q : Nat, (GPIOPin.ctor u pin input pullup invert).2.1.testBit q =
        (u.testBit q || decide (q = pin.toNat))) ∧
    ((GPIOPin.ctor u pin input pullup invert).1.valid_ = false →
      (GPIOPin.ctor u pin input pullup invert).2.1 = u ∧
      (GPIOPin.ctor u pin input pullup invert).2.2 = []) := by
  by_cases hr : pin < 0 ∨ pin > 29
  · rw [ctor_out_of_range u pin input pullup invert hr]
    refine ⟨⟨fun h => absurd h (by simp), fun h => by omega⟩, fun h => absurd h (by simp),
      fun _ => ⟨rfl, rfl⟩⟩
  · have h0 : 0 ≤ pin := by omega
    have h1 : pin ≤ 29 := by omega
    cases hb : u.testBit pin.toNat with
    | true =>
      rw [ctor_claimed u pin input pullup invert h0 h1 hb]
      refine ⟨⟨fun h => absurd h (by simp), fun h => absurd h.2.2 (by simp)⟩,
        fun h => absurd h (by simp), fun _ => ⟨rfl, rfl⟩⟩
    | false =>
      obtain ⟨e1, e2⟩ := ctor_free u pin input pullup invert h0 h1 hb
      rw [e1, e2]
      refine ⟨⟨fun _ => ⟨h0, h1, rfl⟩, fun _ => rfl⟩, ?_, fun h => absurd h (by simp)⟩
      intro _ q
      rw [Nat.testBit_or, Nat.testBit_two_pow]
      by_cases hq : q = pin.toNat
      · subst hq; simp
      · have hq2 : ¬ pin.toNat = q := fun e => hq e.symm
        simp [hq, hq2]

/-- Instance of C11: with pins 7 and 22 claimed, pin 21 is acquired and sets bit 21 only;
pin 22 is refused and leaves the registry and the hardware alone. -/
theorem C11_acquire_validity_witness :
    (∀ q : Nat, (GPIOPin.ctor (2 ^ 7 ||| 2 ^ 22) 21 false false false).2.1.testBit q =
      ((2 ^ 7 ||| 2 ^ 22).testBit q || decide (q = (21 : Int).toNat))) ∧
    ((GPIOPin.ctor (2 ^ 7 ||| 2 ^ 22) 22 false false false).2.1 = 2 ^ 7 ||| 2 ^ 22 ∧
     (GPIOPin.ctor (2 ^ 7 ||| 2 ^ 22) 22 false false false).2.2 = []) :=
  ⟨(C11_acquire_validity (2 ^ 7 ||| 2 ^ 22) 21 false false false).2.1 (by decide),
   (C11_acquire_validity (2 ^ 7 ||| 2 ^ 22) 22 false false false).2.2 (by decide)⟩

/-- C12. Inert invalid handle: for every `GPIOPin` with `valid_ = false`, `read()` returns
`false` without calling `gpio_get` and `write(v)` makes no `gpio_put` call (no HAL call at
all) for either value of `v`; a handle constructed for pin -1, for pin 30, or for an in-range
pin whose bit is already set is such a handle.  Neither method takes or returns
`pins_in_use`, as the source methods do not mention it. -/
theorem C12_inert_invalid_handle (h : GPIOPin) (level v : Bool) (u : Nat) (pin : Int)
    (input pullup invert : Bool) :
    (h.valid_ = false → h.read level = (false, []) ∧ h.write v = []) ∧
    (GPIOPin.ctor u (-1) input pullup invert).1.valid_ = false ∧
    (GPIOPin.ctor u 30 input pullup invert).1.valid_ = false ∧
    (0 ≤ pin → pin ≤ 29 → u.testBit pin.toNat = true →
      (GPIOPin.ctor u pin input pullup invert).1.valid_ = false) := by
  refine ⟨?_, ?_, ?_, ?_⟩
  · intro hv
    simp [GPIOPin.read, GPIOPin.write, hv]
  · rw [ctor_out_of_range u (-1) input pullup invert (by decide)]
  · rw [ctor_out_of_range u 30 input pullup invert (by decide)]
  · intro h0 h1 hb
    rw [ctor_claimed u pin input pullup invert h0 h1 hb]

/-- Instance of C12: the handle constructed for pin 22 while bit 22 is set reads `false` and
ignores writes. -/
theorem C12_inert_invalid_handle_witness :
    (GPIOPin.ctor (2 ^ 22) 22 false false false).1.read true = (false, []) ∧
    (GPIOPin.ctor (2 ^ 22) 22 false false false).1.write true = [] :=
  (C12_inert_invalid_handle (GPIOPin.ctor (2 ^ 22) 22 false false false).1 true true 0 0
    false false false).1 (by decide)

/-- C13, evaluated on the code: a pair constructed with the out-of-range button pin 30 has an
invalid button handle and is Idle after `init_pwm`, yet every `update` finds
`button_.read() == 0`, treats the button as pressed and stores `brightness_ = PWM_MAX`,
`led_on_ = true`, whatever the pin level, the time and the LED pin are. -/
theorem C13_invalid_button_reads_pressed (led_pin : Int) (t : PwmTables) (now clock : Nat)
    (level : Bool) :
    ((ButtonAndLed.ctor 0 30 led_pin).1.init_pwm t).1.button_.valid_ = false ∧
    ((ButtonAndLed.ctor 0 30 led_pin).1.init_pwm t).1.brightness_ = 0 ∧
    ((ButtonAndLed.ctor 0 30 led_pin).1.init_pwm t).1.led_on_ = false ∧
    ((ButtonAndLed.ctor 0 30 led_pin).1.init_pwm t).1.off_deadline_ = nil_time ∧
    ((((ButtonAndLed.ctor 0 30 led_pin).1.init_pwm t).1.update now clock level).1.brightness_
      = PWM_MAX) ∧
    ((((ButtonAndLed.ctor 0 30 led_pin).1.init_pwm t).1.update now clock level).1.led_on_
      = true) := by
  obtain ⟨f1, _, f3, f4, f5, _, _⟩ := init_pwm_fields (ButtonAndLed.ctor 0 30 led_pin).1 t
  have hb : (ButtonAndLed.ctor 0 30 led_pin).1.button_ =
      { pin_ := 30, is_input_ := true, valid_ := false } := by
    show (GPIOPin.ctor 0 30 true true false).1 = _
    rw [ctor_out_of_range 0 30 true true false (by decide)]
  have hv : ((ButtonAndLed.ctor 0 30 led_pin).1.init_pwm t).1.button_.valid_ = false := by
    rw [f1, hb]
  have hp := update_pressed ((ButtonAndLed.ctor 0 30 led_pin).1.init_pwm t).1 now clock level
    (by rw [read_invalid _ level hv])
  exact ⟨hv, f3, f4, f5, hp.1, hp.2.1⟩

/-- C14. Conflict grants no hardware access: an `init_pwm` that finds
`pwm_used_[slice][ch_idx]` already true leaves `pwm_used_` and `slice_inited_` unchanged and
issues no `gpio_set_function`, `pwm_init`, `pwm_set_enabled` or `pwm_set_chan_level`; its
only call is the diagnostic `printf`, and the pair keeps its handles and gets
`pwm_ok_ = false`, `slice_` / `channel_` = the conflicting identity, `brightness_ = 0`,
`led_on_ = false` and `off_deadline_ = nil_time`. -/
theorem C14_conflict_no_hardware (s : ButtonAndLed) (t : PwmTables)
    (h : t.pwm_used_ (pwm_gpio_to_slice_num (toUInt32 s.led_.number))
      (if pwm_gpio_to_channel (toUInt32 s.led_.number) = PWM_CHAN_A then 0 else 1) = true) :
    (s.init_pwm t).2.1 = t ∧
    (s.init_pwm t).2.2 =
      [HalCall.printf_conflict s.led_.number (pwm_gpio_to_slice_num (toUInt32 s.led_.number))
        (if pwm_gpio_to_channel (toUInt32 s.led_.number) = PWM_CHAN_A then 0 else 1)] ∧
    (s.init_pwm t).1 =
      { s with pwm_ok_ := false, slice_ := pwm_gpio_to_slice_num (toUInt32 s.led_.number),
               channel_ := pwm_gpio_to_channel (toUInt32 s.led_.number), brightness_ := 0,
               led_on_ := false, off_deadline_ := nil_time } := by
  rw [init_pwm_conflict s t h]
  exact ⟨rfl, rfl, rfl⟩

/-- Instance of C14: after the pair on LED pin 22 was granted slice 3 channel A, `init_pwm`
of a second pair on LED pin 22 only prints the diagnostic. -/
theorem C14_conflict_no_hardware_witness :
    ((ButtonAndLed.ctor (2 ^ 7 ||| 2 ^ 22) 8 22).1.init_pwm
      ((ButtonAndLed.ctor 0 7 22).1.init_pwm PwmTables.empty).2.1).2.2 =
      [HalCall.printf_conflict 22 3 0] :=
  (C14_conflict_no_hardware (ButtonAndLed.ctor (2 ^ 7 ||| 2 ^ 22) 8 22).1
    ((ButtonAndLed.ctor 0 7 22).1.init_pwm PwmTables.empty).2.1 (by decide)).2.1

/-- C15. Slice configured exactly once: starting from freshly constructed pairs and empty
tables, for every sequence of `init_pwm` calls (and `update` calls) and every slice `sl`, the
calls made contain `pwm_init` for `sl` at most once, and exactly once when `slice_inited_[sl]`
is set; `slice_inited_[sl]` is true if and only if some channel of `sl` is marked in
`pwm_used_`; a granted `init_pwm` on `sl` made while no channel of `sl` is marked issues
`gpio_set_function`, `pwm_init(sl, 125, 999, true)` and `pwm_set_chan_level(sl, ch, 0)`, and
one made while a channel of `sl` is already marked issues `pwm_set_enabled(sl, true)` in
place of `pwm_init`. -/
theorem C15_slice_configured_once (pins : List (Int × Int)) (ops : List PairOp) (sl : Nat) :
    List.countP (HalCall.isPwmInitFor sl) ((PairWorld.boot pins).runCalls ops) ≤ 1 ∧
    (List.countP (HalCall.isPwmInitFor sl) ((PairWorld.boot pins).runCalls ops) = 1 ↔
      ((PairWorld.boot pins).run ops).tables.slice_inited_ sl = true) ∧
    (((PairWorld.boot pins).run ops).tables.slice_inited_ sl = true ↔
      ∃ c, ((PairWorld.boot pins).run ops).tables.pwm_used_ sl c = true) ∧
    (∀ (i : Nat) (s : ButtonAndLed), ((PairWorld.boot pins).run ops).pairs[i]? = some s →
      pwm_gpio_to_slice_num (toUInt32 s.led_.number) = sl →
      ((PairWorld.boot pins).run ops).tables.pwm_used_ sl
        (if pwm_gpio_to_channel (toUInt32 s.led_.number) = PWM_CHAN_A then 0 else 1) = false →
      ((∀ c, ((PairWorld.boot pins).run ops).tables.pwm_used_ sl c = false) →
        ((PairWorld.boot pins).run ops).stepCalls (.init_pwm i) =
          [HalCall.gpio_set_function s.led_.number GPIO_FUNC_PWM,
           HalCall.pwm_init sl CLK_DIV WRAP_VALUE true,
           HalCall.pwm_set_chan_level sl (pwm_gpio_to_channel (toUInt32 s.led_.number)) 0]) ∧
      ((∃ c, ((PairWorld.boot pins).run ops).tables.pwm_used_ sl c = true) →
        ((PairWorld.boot pins).run ops).stepCalls (.init_pwm i) =
          [HalCall.gpio_set_function s.led_.number GPIO_FUNC_PWM,
           HalCall.pwm_set_enabled sl true,
           HalCall.pwm_set_chan_level sl (pwm_gpio_to_channel (toUInt32 s.led_.number)) 0])) ∧
    CLK_DIV = 125 ∧ WRAP_VALUE = 999 := by
  have hcount := runCalls_count ops sl (PairWorld.boot pins)
  have hboot : (PairWorld.boot pins).tables.slice_inited_ sl = false := rfl
  rw [hboot] at hcount
  simp only [Bool.false_eq_true, if_false, Nat.add_zero] at hcount
  have hinv := inited_iff_used_run ops (PairWorld.boot pins)
    (by
      intro a
      constructor
      · intro h; exact absurd h (by simp [PairWorld.boot, PwmTables.empty])
      · rintro ⟨c, hc⟩; exact absurd hc (by simp [PairWorld.boot, PwmTables.empty]))
  refine ⟨?_, ?_, hinv sl, ?_, rfl, rfl⟩
  · rw [hcount]; split <;> omega
  · rw [hcount]
    constructor
    · intro h
      by_contra hn
      rw [if_neg hn] at h
      omega
    · intro h
      rw [if_pos h]
  · intro i s hs hsl hfree
    subst hsl
    have htr := (init_pwm_trace s ((PairWorld.boot pins).run ops).tables).2 hfree
    rw [stepCalls_init_pwm_some _ i s hs, htr]
    constructor
    · intro hnone
      have hni : ¬ ((PairWorld.boot pins).run ops).tables.slice_inited_ s.led_slice = true := by
        intro hi
        obtain ⟨c, hc⟩ := (hinv s.led_slice).1 hi
        have := hnone c
        rw [ButtonAndLed.led_slice] at hc
        rw [hc] at this
        exact absurd this (by decide)
      rw [if_neg hni]
      rfl
    · intro hsome
      have hi : ((PairWorld.boot pins).run ops).tables.slice_inited_ s.led_slice = true :=
        (hinv s.led_slice).2 hsome
      rw [if_pos hi]
      rfl

/-- Instance of C15: LED pins 22 and 23 share slice 3; after the pair on pin 22 was granted
channel A, the grant of channel B to the pair on pin 23 enables the slice without
configuring it again. -/
theorem C15_slice_configured_once_witness :
    ((PairWorld.boot [(7, 22), (8, 23)]).run [.init_pwm 0]).stepCalls (.init_pwm 1) =
      [HalCall.gpio_set_function 23 GPIO_FUNC_PWM,
       HalCall.pwm_set_enabled 3 true,
       HalCall.pwm_set_chan_level 3 (pwm_gpio_to_channel (toUInt32 23)) 0] :=
  ((C15_slice_configured_once [(7, 22), (8, 23)] [.init_pwm 0] 3).2.2.2.1 1
    { button_ := { pin_ := 8, is_input_ := true, valid_ := true },
      led_ := { pin_ := 23, is_input_ := false, valid_ := true },
      slice_ := 0, channel_ := 0, brightness_ := 0, led_on_ := false, off_deadline_ := 0,
      pwm_ok_ := false }
    (by decide) (by decide) (by decide)).2 ⟨0, by decide⟩

/-- C16. Release frees the claim: destroying a valid `GPIOPin` for pin `p` (one the
constructor made valid) clears bit `p` of the 32-bit `pins_in_use` and leaves every other bit
as it was, so a `GPIOPin` constructed for `p` immediately afterwards is valid; destroying an
invalid handle leaves `pins_in_use` unchanged and makes no HAL call. -/
theorem C16_release_frees_claim (u0 u : Nat) (pin : Int) (input pullup invert : Bool)
    (input2 pullup2 invert2 : Bool) (h : GPIOPin) (hu : u < 2 ^ 32)
    (hvalid : (GPIOPin.ctor u0 pin input pullup invert).1.valid_ = true) :
    (∀ q : Nat, ((GPIOPin.ctor u0 pin input pullup invert).1.dtor u).1.testBit q =
      (u.testBit q && decide (q ≠ pin.toNat))) ∧
    (GPIOPin.ctor ((GPIOPin.ctor u0 pin input pullup invert).1.dtor u).1 pin
      input2 pullup2 invert2).1.valid_ = true ∧
    (h.valid_ = false → h.dtor u = (u, [])) := by
  obtain ⟨h0, h1, hp⟩ := ctor_valid_range u0 pin input pullup invert hvalid
  have hq : pin.toNat < 32 := by omega
  have hd : ((GPIOPin.ctor u0 pin input pullup invert).1.dtor u).1 =
      u &&& ((2 ^ 32 - 1) ^^^ 2 ^ pin.toNat) := by
    rw [dtor_valid_pins _ u hvalid (by rw [hp]; exact h0) (by rw [hp]; exact h1), hp]
  have hbits : ∀ q : Nat, (u &&& ((2 ^ 32 - 1) ^^^ 2 ^ pin.toNat)).testBit q =
      (u.testBit q && decide (q ≠ pin.toNat)) := by
    intro q
    rw [testBit_clear u pin.toNat q hq]
    by_cases hq32 : q < 32
    · by_cases hqp : q = pin.toNat
      · subst hqp; simp
      · have : ¬ pin.toNat = q := fun e => hqp e.symm
        simp [hq32, hqp, this]
    · rw [testBit_high u q hu (by omega)]
      simp
  rw [hd]
  refine ⟨hbits, ?_, fun hv => dtor_invalid h u hv⟩
  have hclear : (u &&& ((2 ^ 32 - 1) ^^^ 2 ^ pin.toNat)).testBit pin.toNat = false := by
    rw [hbits]; simp
  rw [(ctor_free _ pin input2 pullup2 invert2 h0 h1 hclear).1]

/-- Instance of C16: with pins 7 and 22 claimed, destroying the handle of pin 22 leaves
only bit 7 set, and pin 22 can be acquired again. -/
theorem C16_release_frees_claim_witness :
    (∀ q : Nat, ((GPIOPin.ctor 0 22 false false false).1.dtor (2 ^ 7 ||| 2 ^ 22)).1.testBit q =
      ((2 ^ 7 ||| 2 ^ 22).testBit q && decide (q ≠ (22 : Int).toNat))) ∧
    (GPIOPin.ctor ((GPIOPin.ctor 0 22 false false false).1.dtor (2 ^ 7 ||| 2 ^ 22)).1 22
      false false false).1.valid_ = true :=
  ⟨(C16_release_frees_claim 0 (2 ^ 7 ||| 2 ^ 22) 22 false false false false false false
      (GPIOPin.ctor 0 22 false false false).1 (by decide) (by decide)).1,
   (C16_release_frees_claim 0 (2 ^ 7 ||| 2 ^ 22) 22 false false false false false false
      (GPIOPin.ctor 0 22 false false false).1 (by decide) (by decide)).2.1⟩

/-- C17 as stated fails: a pressed `update` of a pair in PWM mode calls
`pwm_set_chan_level(3, 0, 1000)`, and 1000 exceeds `WRAP_VALUE = 999`. -/
theorem C17_duty_level_counterexample :
    ¬ (∀ (pins : List (Int × Int)) (ops : List PairOp) (sl ch lv : Nat),
        HalCall.pwm_set_chan_level sl ch lv ∈ (PairWorld.boot pins).runCalls ops →
        lv ≤ WRAP_VALUE) := by
  intro h
  exact absurd
    (h [(7, 22)] [.init_pwm 0, .update 0 1000000 1000001 false] 3 0 1000 (by decide))
    (by decide)

/-- C17 (amended). Duty level within range: after the pairs are constructed, for every
sequence of `init_pwm` and `update` calls, every level passed to `pwm_set_chan_level` lies in
`0 .. PWM_MAX`, where `PWM_MAX = 1000 = WRAP_VALUE + 1`. -/
theorem C17_duty_level (pins : List (Int × Int)) (ops : List PairOp) (sl ch lv : Nat)
    (h : HalCall.pwm_set_chan_level sl ch lv ∈ (PairWorld.boot pins).runCalls ops) :
    0 ≤ lv ∧ lv ≤ PWM_MAX ∧ PWM_MAX = WRAP_VALUE + 1 :=
  ⟨Nat.zero_le _, runCalls_level ops (PairWorld.boot pins) sl ch lv h, rfl⟩

/-- Instance of C17 (amended): the level 1000 written by a pressed `update`. -/
theorem C17_duty_level_witness :
    HalCall.pwm_set_chan_level 3 0 1000 ∈
      (PairWorld.boot [(7, 22)]).runCalls [.init_pwm 0, .update 0 1000000 1000001 false] ∧
    (0 ≤ 1000 ∧ 1000 ≤ PWM_MAX ∧ PWM_MAX = WRAP_VALUE + 1) :=
  ⟨by decide,
   C17_duty_level [(7, 22)] [.init_pwm 0, .update 0 1000000 1000001 false] 3 0 1000
     (by decide)⟩

/-- C18. Engaged/deadline invariant: in every state of a pair reached from construction by
any sequence of `init_pwm` and `update` calls, `led_on_ = false` implies `brightness_ = 0`
and `off_deadline_ = nil_time` (so a set deadline or a non-zero brightness implies
`led_on_ = true`); hence whenever a pair is not engaged after any number of `update` calls
following `init_pwm`, as after a completed fade, its state is identical to the post-init
state. -/
theorem C18_engaged_invariant (pins : List (Int × Int)) (ops : List PairOp)
    (s : ButtonAndLed) (t : PwmTables) (ticks : List (Nat × Nat × Bool)) :
    (∀ a ∈ ((PairWorld.boot pins).run ops).pairs,
      (a.led_on_ = false → a.brightness_ = 0 ∧ a.off_deadline_ = nil_time) ∧
      (a.off_deadline_ ≠ nil_time ∨ a.brightness_ ≠ 0 → a.led_on_ = true)) ∧
    (((s.init_pwm t).1.updates ticks).led_on_ = false →
      (s.init_pwm t).1.updates ticks = (s.init_pwm t).1) := by
  constructor
  · have hinv := run_pairs_invariant
      (fun a => a.led_on_ = false → a.brightness_ = 0 ∧ a.off_deadline_ = nil_time)
      (fun s t _ => ⟨(init_pwm_fields s t).2.2.1, (init_pwm_fields s t).2.2.2.2.1⟩)
      (fun s now clock level h => update_engaged s now clock level h)
      ops (PairWorld.boot pins)
      (fun a ha _ => ⟨(constructPairs_idle pins 0 a ha).1, (constructPairs_idle pins 0 a ha).2.2⟩)
    intro a ha
    refine ⟨hinv a ha, ?_⟩
    intro hor
    cases hl : a.led_on_ with
    | true => rfl
    | false =>
      obtain ⟨hb, hd⟩ := hinv a ha hl
      rcases hor with hor | hor
      · exact absurd hd hor
      · exact absurd hb hor
  · intro hoff
    obtain ⟨_, _, p3, p4, p5, _, _⟩ := init_pwm_fields s t
    obtain ⟨f1, f2, f3, f4, f5, f6⟩ := updates_frame ticks (s.init_pwm t).1
      (fun _ => ⟨p3, p5⟩)
    obtain ⟨hb, hd⟩ := f6 hoff
    exact pair_ext _ _ f1 f2 f3 f4 (hb.trans p3.symm) (hoff.trans p4.symm) (hd.trans p5.symm) f5

/-- Instance of C18: press, release, and an `update` after the deadline bring the pair back
to its post-init state. -/
theorem C18_engaged_invariant_witness :
    ((ButtonAndLed.ctor 0 7 22).1.init_pwm PwmTables.empty).1.updates
        [(0, 1, false), (10000, 10001, true), (1010001, 1010002, true)] =
      ((ButtonAndLed.ctor 0 7 22).1.init_pwm PwmTables.empty).1 :=
  (C18_engaged_invariant [] [] (ButtonAndLed.ctor 0 7 22).1 PwmTables.empty
    [(0, 1, false), (10000, 10001, true), (1010001, 1010002, true)]).2 (by decide)

/-- C19. `init_pwm` is not idempotent: when an `init_pwm` on the pair at position `i` is
granted (its channel was free), the pair is in PWM mode on that channel; a second `init_pwm`
on the same pair, after any calls in between, takes the conflict branch and leaves
`pwm_ok_ = false` while `pwm_used_` for its `(slice, channel)` stays true; from then on, after
any further calls, the entry is still set, no pair holds that channel in PWM mode, and an
`init_pwm` by any pair whose LED pin maps to it ends with `pwm_ok_ = false`. -/
theorem C19_init_pwm_not_idempotent (pins : List (Int × Int)) (ops1 ops2 ops3 : List PairOp)
    (i : Nat) (s : ButtonAndLed)
    (hs : ((PairWorld.boot pins).run ops1).pairs[i]? = some s)
    (hfree : ((PairWorld.boot pins).run ops1).tables.pwm_used_ s.led_slice s.led_ch_idx = false) :
    (∃ a, ((PairWorld.boot pins).run (ops1 ++ [.init_pwm i])).pairs[i]? = some a ∧
      a.pwm_ok_ = true ∧ a.slice_ = s.led_slice ∧ a.channel_ = s.led_channel) ∧
    (∃ b, ((PairWorld.boot pins).run
        (ops1 ++ [.init_pwm i] ++ ops2 ++ [.init_pwm i])).pairs[i]? = some b ∧
      b.pwm_ok_ = false ∧ b.slice_ = s.led_slice ∧ b.channel_ = s.led_channel) ∧
    ((PairWorld.boot pins).run
        (ops1 ++ [.init_pwm i] ++ ops2 ++ [.init_pwm i])).tables.pwm_used_
      s.led_slice s.led_ch_idx = true ∧
    ((PairWorld.boot pins).run
        (ops1 ++ [.init_pwm i] ++ ops2 ++ [.init_pwm i] ++ ops3)).tables.pwm_used_
      s.led_slice s.led_ch_idx = true ∧
    (∀ (j : Nat) (c : ButtonAndLed),
      ((PairWorld.boot pins).run
        (ops1 ++ [.init_pwm i] ++ ops2 ++ [.init_pwm i] ++ ops3)).pairs[j]? = some c →
      c.pwm_ok_ = true → ¬ (c.slice_ = s.led_slice ∧ c.channel_ = s.led_channel)) ∧
    (∀ (j : Nat) (c : ButtonAndLed),
      ((PairWorld.boot pins).run
        (ops1 ++ [.init_pwm i] ++ ops2 ++ [.init_pwm i] ++ ops3)).pairs[j]? = some c →
      c.led_slice = s.led_slice → c.led_ch_idx = s.led_ch_idx →
      (c.init_pwm ((PairWorld.boot pins).run
        (ops1 ++ [.init_pwm i] ++ ops2 ++ [.init_pwm i] ++ ops3)).tables).1.pwm_ok_ = false) := by
  simp only [run_append, run_single]
  have hex1 : ((PairWorld.boot pins).run ops1).Exclusive :=
    exclusive_run ops1 _ (exclusive_boot pins)
  obtain ⟨⟨a, ha, hok, hsl, hch, hled⟩, hold2⟩ :=
    grant_only_holder ((PairWorld.boot pins).run ops1) i s hex1 hs hfree
  have hold2r := only_holder_run ops2 _ _ _ _ hold2
  obtain ⟨a2, ha2, hled2⟩ := run_pair_at ops2 _ i a ha
  obtain ⟨e1, e2, e3⟩ := led_ids_congr a2 s (hled2.trans hled)
  rw [← e1, ← e3] at hold2r
  obtain ⟨⟨b, hb, hbok, hbsl, hbch⟩, hold3⟩ := holder_init_again _ i a2 hold2r ha2
  rw [e1, e3] at hold3
  have hold4 := only_holder_run ops3 _ _ _ _ hold3
  have hex4 := exclusive_run ops3 _ (exclusive_step _ (.init_pwm i)
    (exclusive_run ops2 _ (exclusive_step _ (.init_pwm i) hex1)))
  refine ⟨⟨a, ha, hok, hsl, hch⟩, ⟨b, hb, hbok, hbsl.trans e1, hbch.trans e2⟩, hold3.1,
    hold4.1, ?_, ?_⟩
  · intro j c hc hcok hsame
    obtain ⟨c1, c2, _⟩ := hex4.1 j c hc hcok
    have hcsl : c.led_slice = s.led_slice := by rw [← c1]; exact hsame.1
    have hcch : c.led_channel = s.led_channel := by rw [← c2]; exact hsame.2
    have hcx : c.led_ch_idx = s.led_ch_idx := by
      simp only [ButtonAndLed.led_ch_idx, hcch]
    have := hold4.2 j c hc hcsl hcx hcok
    exact absurd this (by simp)
  · intro j c _ hcsl hcx
    have hu := hold4.1
    rw [← hcsl, ← hcx] at hu
    exact (init_pwm_conflict_fields c _ hu).1

/-- Instance of C19: the pair on LED pin 22 is granted slice 3 channel A by its first
`init_pwm` and loses PWM mode by its second, with the channel still marked used. -/
theorem C19_init_pwm_not_idempotent_witness :
    (∃ b, ((PairWorld.boot [(7, 22)]).run
        ([] ++ [.init_pwm 0] ++ [] ++ [.init_pwm 0])).pairs[0]? = some b ∧
      b.pwm_ok_ = false ∧ b.slice_ = (ButtonAndLed.ctor 0 7 22).1.led_slice ∧
      b.channel_ = (ButtonAndLed.ctor 0 7 22).1.led_channel) ∧
    ((PairWorld.boot [(7, 22)]).run
        ([] ++ [.init_pwm 0] ++ [] ++ [.init_pwm 0])).tables.pwm_used_
      (ButtonAndLed.ctor 0 7 22).1.led_slice (ButtonAndLed.ctor 0 7 22).1.led_ch_idx = true :=
  ⟨(C19_init_pwm_not_idempotent [(7, 22)] [] [] [] 0 (ButtonAndLed.ctor 0 7 22).1
      (by decide) (by decide)).2.1,
   (C19_init_pwm_not_idempotent [(7, 22)] [] [] [] 0 (ButtonAndLed.ctor 0 7 22).1
      (by decide) (by decide)).2.2.1⟩

/-- C20. `init_pwm` ignores LED-handle validity: for a pair whose LED handle is invalid and
whose mapped `(slice, channel)` is still free, `init_pwm` marks the channel in `pwm_used_`,
issues `gpio_set_function(pin, PWM)`, the slice call (`pwm_init`, or `pwm_set_enabled` when
the slice is already configured) and `pwm_set_chan_level(slice, channel, 0)`, and sets
`pwm_ok_ = true`; an `init_pwm` made afterwards by the pair that validly owns the same LED
pin ends in conflict with `pwm_ok_ = false`. -/
theorem C20_init_pwm_ignores_led_validity (s owner : ButtonAndLed) (t : PwmTables)
    (hinvalid : s.led_.valid_ = false)
    (hfree : t.pwm_used_ (pwm_gpio_to_slice_num (toUInt32 s.led_.number))
      (if pwm_gpio_to_channel (toUInt32 s.led_.number) = PWM_CHAN_A then 0 else 1) = false)
    (howner : owner.led_.valid_ = true) (hpin : owner.led_.pin_ = s.led_.pin_) :
    s.led_.valid_ = false ∧ owner.led_.valid_ = true ∧
    (s.init_pwm t).1.pwm_ok_ = true ∧
    (s.init_pwm t).2.1.pwm_used_ (pwm_gpio_to_slice_num (toUInt32 s.led_.number))
      (if pwm_gpio_to_channel (toUInt32 s.led_.number) = PWM_CHAN_A then 0 else 1) = true ∧
    (s.init_pwm t).2.2 =
      [HalCall.gpio_set_function s.led_.number GPIO_FUNC_PWM,
       (if t.slice_inited_ (pwm_gpio_to_slice_num (toUInt32 s.led_.number)) = true then
          HalCall.pwm_set_enabled (pwm_gpio_to_slice_num (toUInt32 s.led_.number)) true
        else HalCall.pwm_init (pwm_gpio_to_slice_num (toUInt32 s.led_.number)) CLK_DIV
          WRAP_VALUE true),
       HalCall.pwm_set_chan_level (pwm_gpio_to_slice_num (toUInt32 s.led_.number))
         (pwm_gpio_to_channel (toUInt32 s.led_.number)) 0] ∧
    (owner.init_pwm (s.init_pwm t).2.1).1.pwm_ok_ = false := by
  obtain ⟨f1, _, _, _, f5⟩ := init_pwm_granted_fields s t hfree
  have hused : (s.init_pwm t).2.1.pwm_used_ s.led_slice s.led_ch_idx = true := by
    rw [f5, if_pos ⟨rfl, rfl⟩]
  have hids : owner.led_slice = s.led_slice ∧ owner.led_ch_idx = s.led_ch_idx := by
    simp [ButtonAndLed.led_slice, ButtonAndLed.led_ch_idx, ButtonAndLed.led_channel,
      GPIOPin.number, hpin]
  refine ⟨hinvalid, howner, f1, hused, (init_pwm_trace s t).2 hfree, ?_⟩
  apply (init_pwm_conflict_fields owner _ _).1
  rw [hids.1, hids.2]
  exact hused

/-- Instance of C20: the second pair constructed on LED pin 22 has an invalid LED handle; if
its `init_pwm` runs first it is granted slice 3 channel A, and the `init_pwm` of the first
pair, which owns pin 22, then ends in conflict. -/
theorem C20_init_pwm_ignores_led_validity_witness :
    ((ButtonAndLed.ctor (2 ^ 7 ||| 2 ^ 22) 8 22).1.init_pwm PwmTables.empty).1.pwm_ok_ = true ∧
    ((ButtonAndLed.ctor 0 7 22).1.init_pwm
      ((ButtonAndLed.ctor (2 ^ 7 ||| 2 ^ 22) 8 22).1.init_pwm PwmTables.empty).2.1).1.pwm_ok_
      = false :=
  ⟨(C20_init_pwm_ignores_led_validity (ButtonAndLed.ctor (2 ^ 7 ||| 2 ^ 22) 8 22).1
      (ButtonAndLed.ctor 0 7 22).1 PwmTables.empty (by decide) (by decide) (by decide)
      (by decide)).2.2.1,
   (C20_init_pwm_ignores_led_validity (ButtonAndLed.ctor (2 ^ 7 ||| 2 ^ 22) 8 22).1
      (ButtonAndLed.ctor 0 7 22).1 PwmTables.empty (by decide) (by decide) (by decide)
      (by decide)).2.2.2.2.2⟩

end GarageDoor
